import Mathlib

set_option maxRecDepth 100000

/-!
Shallow embedding of the mock data synthesis engine of `src/app.py`
(`generate_mock_data`, its helpers `clamp` and the weekday factor, and the
downstream `avg_order_value` computation), together with proofs of the
specification claims about it.

Modelling conventions:

* Python floats are modelled as rationals.
* Randomness: every call to a sampling primitive consumes one value from an
  abstract oracle stream at a running counter that is threaded through the
  computation.  `np.random.normal mean std` may return any real, so it is
  modelled as `mean + std * raw` with `raw` an arbitrary oracle rational;
  `np.random.uniform lo hi` returns a value in `[lo, hi)`, modelled as
  `lo + (hi - lo) * Int.fract raw`; `np.random.exponential scale` returns a
  nonnegative value, modelled as `scale * |raw|`; `random.randint a b`
  returns an integer in `[a, b]`, modelled with a modulus on an oracle
  natural; `random.choice` and `random.choices` return an element of the
  population, and raise `IndexError` on an empty population.  Weighted
  choice (`random.choices` with a weights list) is modelled as returning an
  arbitrary element of the population: every weight vector appearing in the
  program is strictly positive, so the support of the real distribution is
  the whole population and the model over-approximates the set of possible
  draws, which is sound for the universally quantified claims proved below.
* Dates are modelled as integers (absolute day numbers);
  `pd.date_range(start, periods=n).tolist()` is the list of `n` consecutive
  integers starting at `start`, and raises `ValueError` when `n` is
  negative.  `date.weekday()` is modelled as `d % 7` (a fixed epoch
  convention; the specification explicitly leaves the day-of-week
  convention open, and no claim depends on which two residues are boosted).
* The seasonal multiplier `1 + 0.25*sin(2*pi*(doy/365) - pi/2)` is a
  deterministic real-valued function; it enters the generator only as the
  mean of normal draws, whose results the model treats as arbitrary oracle
  reals, so it is passed to the generator as an abstract function
  parameter `seasonal` from dates to rationals.
* Python `round(x, 2)` is round-half-to-even at two decimals (`round2`);
  `int(x)` truncates toward zero (`truncQ`).
* Errors (`KeyError` from dict lookups, `IndexError` from empty-population
  choice, `ValueError` from `pd.date_range` with negative `periods`) are
  modelled with `Except PyErr`.  Assembling a pandas DataFrame from an
  empty record list yields a frame with no columns, so the normalisation
  line `df["Date"] = pd.to_datetime(df["Date"])` raises `KeyError` on an
  empty table; on a non-empty record list the Date column exists and the
  conversion leaves the (already datetime-valued) entries unchanged.  This
  is `normalizeDates`.
-/

/-- One Python error value, as far as this program can raise them. -/
inductive PyErr : Type where
  | valueError : PyErr
  | keyError : PyErr
  | indexError : PyErr
  deriving DecidableEq, Repr

/-- The abstract randomness source: a stream of raw rationals (for the
continuous samplers) and a stream of raw naturals (for the discrete
samplers), both indexed by a running draw counter. -/
structure Oracle : Type where
  q : ℕ → ℚ
  i : ℕ → ℕ

/-- Round-half-to-even to an integer, the tie-breaking rule of Python
`round`. -/
def roundHalfEven (x : ℚ) : ℤ :=
  if Int.fract x < 1/2 then ⌊x⌋
  else if 1/2 < Int.fract x then ⌊x⌋ + 1
  else if ⌊x⌋ % 2 = 0 then ⌊x⌋ else ⌊x⌋ + 1

/-- Python `round(x, 2)`. -/
def round2 (x : ℚ) : ℚ := (roundHalfEven (100 * x) : ℚ) / 100

/-- Python `int(x)`: truncation toward zero. -/
def truncQ (x : ℚ) : ℤ := if 0 ≤ x then ⌊x⌋ else -⌊-x⌋

/-- The helper `clamp` of src/app.py line 28: `max(lo, min(hi, x))`. -/
def clamp (x lo hi : ℚ) : ℚ := max lo (min hi x)

/-- Model of `date.weekday()` under the modelling convention described in the header. -/
def weekday (d : ℤ) : ℤ := d % 7

/-- The weekday factor of src/app.py line 65:
`1.1 if date.weekday() in [4,5] else 0.9`. -/
def weekday_factor (d : ℤ) : ℚ :=
  if weekday d = 4 ∨ weekday d = 5 then 1.1 else 0.9

/-- Model of `np.random.normal(mean, std)`: an arbitrary oracle real,
reparametrised around the mean. -/
def pyNormal (o : Oracle) (mean std : ℚ) (c : ℕ) : ℚ × ℕ :=
  (mean + std * o.q c, c + 1)

/-- Model of `np.random.uniform(lo, hi)`: a value in `[lo, hi)`. -/
def pyUniform (o : Oracle) (lo hi : ℚ) (c : ℕ) : ℚ × ℕ :=
  (lo + (hi - lo) * Int.fract (o.q c), c + 1)

/-- Model of `np.random.exponential(scale)`: a nonnegative value. -/
def pyExponential (o : Oracle) (scale : ℚ) (c : ℕ) : ℚ × ℕ :=
  (scale * |o.q c|, c + 1)

/-- Model of `random.randint(a, b)`: an integer in `[a, b]`. -/
def pyRandint (o : Oracle) (a b : ℤ) (c : ℕ) : ℤ × ℕ :=
  (a + (o.i c % (b - a + 1).toNat : ℕ), c + 1)

/-- Model of `random.choice(xs)` (and of one draw of `random.choices`):
an element of `xs`, or `IndexError` when `xs` is empty. -/
def pyChoice {α : Type} (o : Oracle) (xs : List α) (c : ℕ) :
    Except PyErr (α × ℕ) :=
  match xs with
  | [] => .error .indexError
  | x :: rest =>
      .ok ((x :: rest).get ⟨o.i c % (rest.length + 1), Nat.mod_lt _ (Nat.succ_pos _)⟩,
        c + 1)

/-- Model of `random.choices(xs, weights=w)[0]`.  The weight vector only
shapes the distribution; every weight vector in this program is strictly
positive, so the set of possible results is all of `xs`, which is what the
model captures. -/
def pyChoicesW {α : Type} (o : Oracle) (xs : List α) (_w : List ℚ) (c : ℕ) :
    Except PyErr (α × ℕ) :=
  pyChoice o xs c

/-- Model of `random.choices(xs, k=k)`: `k` successive draws. -/
def pyChoicesK {α : Type} (o : Oracle) (xs : List α) : ℕ → ℕ → Except PyErr (List α × ℕ)
  | 0, c => .ok ([], c)
  | k + 1, c => do
      let (x, c1) ← pyChoice o xs c
      let (ys, c2) ← pyChoicesK o xs k c1
      pure (x :: ys, c2)

/-- Model of a Python dict subscript `d[k]`: the looked-up value, or
`KeyError` when the key is absent. -/
def dictGet {α : Type} (v : Option α) : Except PyErr α :=
  match v with
  | none => .error .keyError
  | some a => .ok a

/-- The `categories` dict of src/app.py lines 39-45. -/
def categories : List (String × List String) :=
  [("Skincare", ["Hydrating Serum", "SPF50 Sunscreen", "Vitamin C Cream", "Gentle Cleanser"]),
   ("Makeup", ["Matte Lipstick", "Glow Foundation", "Brow Kit", "Volumizing Mascara"]),
   ("Haircare", ["Argan Shampoo", "Keratin Conditioner", "Repair Mask", "Curl Cream"]),
   ("Fragrance", ["Citrus Mist", "Noir Eau de Parfum", "Floral Bloom"]),
   ("Body", ["Shea Body Butter", "Exfoliating Scrub", "Aloe Body Gel"])]

/-- The key list `list(categories.keys())` of src/app.py line 77. -/
def cats : List String := categories.map Prod.fst

/-- Sales channels, src/app.py line 47. -/
def channels : List String := ["Online", "In-store", "Wholesale"]

/-- Marketing channels, src/app.py line 48. -/
def marketing_channels : List String := ["Organic", "Paid", "Social", "Email"]

/-- Social platforms, src/app.py line 49. -/
def social_platforms : List String := ["Instagram", "Facebook", "TikTok", "YouTube"]

/-- Offers, src/app.py line 50. -/
def offers : List String := ["None", "10% Off", "Buy 1 Get 1", "Free Gift"]

/-- The campaign catalog, src/app.py line 51. -/
def campaigns : List String :=
  ["Summer Glow", "Holiday Sparkle", "Winter Warmth", "Spring Fresh", "Loyalty Boost"]

/-- Review sentiments, src/app.py line 145. -/
def sentiments : List String := ["Positive", "Neutral", "Negative"]

/-- The per-brand category weight dict of src/app.py lines 72-76; absent
keys are `none` (subscripting them raises `KeyError`). -/
def cat_weights (brand : String) : Option (List ℚ) :=
  if brand = "Radiance" then some [0.4, 0.3, 0.15, 0.1, 0.05]
  else if brand = "GlowUp" then some [0.3, 0.4, 0.1, 0.1, 0.1]
  else if brand = "PureBeauty" then some [0.25, 0.25, 0.3, 0.1, 0.1]
  else none

/-- The base price dict of src/app.py lines 83-89. -/
def base_price (cat : String) : Option ℚ :=
  if cat = "Skincare" then some 45
  else if cat = "Makeup" then some 35
  else if cat = "Haircare" then some 30
  else if cat = "Fragrance" then some 75
  else if cat = "Body" then some 25
  else none

/-- The base traffic dict of src/app.py lines 111-116. -/
def base_traffic (ch : String) : Option ℚ :=
  if ch = "Organic" then some 1200
  else if ch = "Paid" then some 800
  else if ch = "Social" then some 600
  else if ch = "Email" then some 400
  else none

/-- One row of the Sales table. -/
structure SalesRec : Type where
  brand : String
  date : ℤ
  category : String
  product : String
  channel : String
  offer : String
  campaign : String
  qty : ℤ
  unitPrice : ℚ
  revenue : ℚ
  deriving DecidableEq, Repr, Inhabited

/-- One row of the Marketing table. -/
structure MarketingRec : Type where
  brand : String
  date : ℤ
  channel : String
  campaign : String
  traffic : ℤ
  ctr : ℚ
  cpc : Option ℚ
  deriving DecidableEq, Repr, Inhabited

/-- One row of the Social table. -/
structure SocialRec : Type where
  brand : String
  date : ℤ
  platform : String
  engagementRate : ℚ
  followers : ℤ
  deriving DecidableEq, Repr, Inhabited

/-- One row of the Reviews table. -/
structure ReviewRec : Type where
  brand : String
  date : ℤ
  sentiment : String
  rating : ℤ
  deriving DecidableEq, Repr, Inhabited

/-- One iteration of the per-order loop, src/app.py lines 71-107. -/
def genOrder (o : Oracle) (brand : String) (date : ℤ) (campaign : String)
    (c : ℕ) : Except PyErr (SalesRec × ℕ) := do
  let w ← dictGet (cat_weights brand)
  let (cat, c1) ← pyChoicesW o cats w c
  let prods ← dictGet (categories.lookup cat)
  let (prod, c2) ← pyChoice o prods c1
  let (channel, c3) ← pyChoicesW o channels [0.6, 0.3, 0.1] c2
  let (offer, c4) ← pyChoicesW o offers [0.7, 0.15, 0.1, 0.05] c3
  let bp ← dictGet (base_price cat)
  let (praw, c5) := pyNormal o bp (bp * 0.15) c4
  let price := clamp (round2 praw) (bp * 0.6) (bp * 1.5)
  let (eraw, c6) := pyExponential o 1.5 c5
  let qty : ℤ := max 1 (truncQ eraw)
  let revenue := round2 (price * (qty : ℚ))
  pure ({ brand := brand, date := date, category := cat, product := prod,
          channel := channel, offer := offer, campaign := campaign,
          qty := qty, unitPrice := price, revenue := revenue }, c6)

/-- The per-order loop `for _ in range(daily_orders)`, src/app.py line 71. -/
def genOrders (o : Oracle) (brand : String) (date : ℤ) (campaign : String) :
    ℕ → ℕ → Except PyErr (List SalesRec × ℕ)
  | 0, c => .ok ([], c)
  | n + 1, c => do
      let (r, c1) ← genOrder o brand date campaign c
      let (rs, c2) ← genOrders o brand date campaign n c1
      pure (r :: rs, c2)

/-- One iteration of the marketing channel loop, src/app.py lines 110-129. -/
def genMarketingOne (o : Oracle) (brand : String) (date : ℤ) (campaign : String)
    (seasonal_mult : ℚ) (ch : String) (c : ℕ) : Except PyErr (MarketingRec × ℕ) := do
  let bt ← dictGet (base_traffic ch)
  let (traw, c1) := pyNormal o (bt * seasonal_mult) (bt * 0.1) c
  let traffic := truncQ (clamp traw 100 5000)
  let (u1, c2) := pyUniform o 0.3 4.5 c1
  let ctr := round2 u1
  if ch = "Paid" then
    let (u2, c3) := pyUniform o 0.3 2.0 c2
    pure ({ brand := brand, date := date, channel := ch, campaign := campaign,
            traffic := traffic, ctr := ctr, cpc := some (round2 u2) }, c3)
  else
    pure ({ brand := brand, date := date, channel := ch, campaign := campaign,
            traffic := traffic, ctr := ctr, cpc := none }, c2)

/-- The marketing channel loop `for mkt_channel in marketing_channels`. -/
def genMarketingList (o : Oracle) (brand : String) (date : ℤ) (campaign : String)
    (seasonal_mult : ℚ) : List String → ℕ → Except PyErr (List MarketingRec × ℕ)
  | [], c => .ok ([], c)
  | ch :: rest, c => do
      let (m, c1) ← genMarketingOne o brand date campaign seasonal_mult ch c
      let (ms, c2) ← genMarketingList o brand date campaign seasonal_mult rest c1
      pure (m :: ms, c2)

/-- The social platform loop, src/app.py lines 132-142: each platform
multiplies its running follower count by a uniform growth factor, truncates
to integer, stores the new count back and emits a record carrying it. -/
def genSocialList (o : Oracle) (brand : String) (date : ℤ) :
    List (String × ℤ) → ℕ → List SocialRec × List (String × ℤ) × ℕ
  | [], c => ([], [], c)
  | (p, f) :: rest, c =>
      let (g, c1) := pyUniform o 1.0005 1.003 c
      let f2 := truncQ ((f : ℚ) * g)
      let (u, c2) := pyUniform o 0.5 8.5 c1
      let (recs, rest2, c3) := genSocialList o brand date rest c2
      ({ brand := brand, date := date, platform := p,
         engagementRate := round2 u, followers := f2 } :: recs,
       (p, f2) :: rest2, c3)

/-- One iteration of the day loop, src/app.py lines 63-142: order count and
campaign for the brand-day, then the sales, marketing and social loops. -/
def genBrandDay (o : Oracle) (seasonal : ℤ → ℚ) (brand : String) (date : ℤ)
    (fs : List (String × ℤ)) (c : ℕ) :
    Except PyErr ((List SalesRec × List MarketingRec × List SocialRec ×
      List (String × ℤ)) × ℕ) := do
  let sm := seasonal date
  let (nd, c1) := pyNormal o (80 * sm * weekday_factor date) 15 c
  let daily_orders := truncQ (clamp nd 40 150)
  let (camp, c2) ← pyChoice o campaigns c1
  let (srecs, c3) ← genOrders o brand date camp daily_orders.toNat c2
  let (mrecs, c4) ← genMarketingList o brand date camp sm marketing_channels c3
  let (socrecs, fs2, c5) := genSocialList o brand date fs c4
  pure ((srecs, mrecs, socrecs, fs2), c5)

/-- The day loop `for date in dates`, threading the follower state and
concatenating the record lists in generation order. -/
def genBrandDays (o : Oracle) (seasonal : ℤ → ℚ) (brand : String) :
    List ℤ → List (String × ℤ) → ℕ →
    Except PyErr ((List SalesRec × List MarketingRec × List SocialRec ×
      List (String × ℤ)) × ℕ)
  | [], fs, c => .ok (([], [], [], fs), c)
  | d :: rest, fs, c => do
      let ((s1, m1, so1, fs1), c1) ← genBrandDay o seasonal brand d fs c
      let ((s2, m2, so2, fs2), c2) ← genBrandDays o seasonal brand rest fs1 c1
      pure ((s1 ++ s2, m1 ++ m2, so1 ++ so2, fs2), c2)

/-- The follower initialisation of src/app.py line 61:
`{p: random.randint(5000, 15000) for p in social_platforms}`. -/
def initFollowers (o : Oracle) : List String → ℕ → List (String × ℤ) × ℕ
  | [], c => ([], c)
  | p :: rest, c =>
      let (f, c1) := pyRandint o 5000 15000 c
      let (fs, c2) := initFollowers o rest c1
      ((p, f) :: fs, c2)

/-- One iteration of the review loop, src/app.py lines 148-158.  The
`rating_map` dict literal evaluates both `randint` calls before the lookup
by sentiment. -/
def genReviewRow (o : Oracle) (brand : String) (d : ℤ) (c : ℕ) :
    Except PyErr (ReviewRec × ℕ) := do
  let (sent, c1) ← pyChoicesW o sentiments [0.7, 0.2, 0.1] c
  let (r45, c2) := pyRandint o 4 5 c1
  let (r12, c3) := pyRandint o 1 2 c2
  let rating ← dictGet ([("Positive", r45), ("Neutral", (3 : ℤ)), ("Negative", r12)].lookup sent)
  pure ({ brand := brand, date := d, sentiment := sent, rating := rating }, c3)

/-- The loop `for review_date in review_dates`. -/
def genReviewRows (o : Oracle) (brand : String) :
    List ℤ → ℕ → Except PyErr (List ReviewRec × ℕ)
  | [], c => .ok ([], c)
  | d :: rest, c => do
      let (r, c1) ← genReviewRow o brand d c
      let (rs, c2) ← genReviewRows o brand rest c1
      pure (r :: rs, c2)

/-- The per-brand review block, src/app.py lines 144-158: 120 dates drawn
with replacement from the horizon, then one review per drawn date. -/
def genReviews (o : Oracle) (brand : String) (dates : List ℤ) (c : ℕ) :
    Except PyErr (List ReviewRec × ℕ) := do
  let (rdates, c1) ← pyChoicesK o dates 120 c
  genReviewRows o brand rdates c1

/-- The per-brand block of the main loop, src/app.py lines 60-158. -/
def genBrand (o : Oracle) (seasonal : ℤ → ℚ) (brand : String) (dates : List ℤ)
    (c : ℕ) :
    Except PyErr ((List SalesRec × List MarketingRec × List SocialRec ×
      List ReviewRec) × ℕ) := do
  let (fs0, c1) := initFollowers o social_platforms c
  let ((s, m, so, _fs), c2) ← genBrandDays o seasonal brand dates fs0 c1
  let (rv, c3) ← genReviews o brand dates c2
  pure ((s, m, so, rv), c3)

/-- The loop `for brand in brands`, concatenating all record lists. -/
def genBrands (o : Oracle) (seasonal : ℤ → ℚ) :
    List String → List ℤ → ℕ →
    Except PyErr ((List SalesRec × List MarketingRec × List SocialRec ×
      List ReviewRec) × ℕ)
  | [], _, c => .ok (([], [], [], []), c)
  | b :: rest, dates, c => do
      let ((s1, m1, so1, rv1), c1) ← genBrand o seasonal b dates c
      let ((s2, m2, so2, rv2), c2) ← genBrands o seasonal rest dates c1
      pure ((s1 ++ s2, m1 ++ m2, so1 ++ so2, rv1 ++ rv2), c2)

/-- Model of `pd.date_range(start=start_date, periods=days).tolist()` for a
nonnegative day count: `days` consecutive day numbers from `start`. -/
def horizon (start : ℤ) (days : ℕ) : List ℤ :=
  (List.range days).map (fun (k : ℕ) => start + (k : ℤ))

/-- The Date normalisation loop of src/app.py lines 165-166.  On an empty
record list the assembled DataFrame has no columns and `df["Date"]` raises
`KeyError`; on a non-empty list the conversion leaves the rows unchanged. -/
def normalizeDates {α : Type} (recs : List α) : Except PyErr (List α) :=
  match recs with
  | [] => .error .keyError
  | _ => .ok recs

/-- The generator `generate_mock_data` of src/app.py lines 35-168, over the oracle and
the abstract seasonal-multiplier function. -/
def generate_mock_data (o : Oracle) (seasonal : ℤ → ℚ) (start : ℤ) (days : ℤ)
    (brands : Option (List String)) (c : ℕ) :
    Except PyErr ((List SalesRec × List MarketingRec × List SocialRec ×
      List ReviewRec × List String) × ℕ) := do
  let bs := match brands with
    | none => ["Radiance", "GlowUp", "PureBeauty"]
    | some l => l
  if days < 0 then .error .valueError
  else do
    let dates := horizon start days.toNat
    let ((s, m, so, rv), c1) ← genBrands o seasonal bs dates c
    let s2 ← normalizeDates s
    let m2 ← normalizeDates m
    let so2 ← normalizeDates so
    let rv2 ← normalizeDates rv
    pure ((s2, m2, so2, rv2, campaigns), c1)

/-- The sum `total_revenue = sales_df["Revenue"].sum()` of src/app.py line 231. -/
def total_revenue (sales : List SalesRec) : ℚ :=
  (sales.map (fun r => r.revenue)).sum

/-- The sum `total_orders = sales_df["Qty"].sum()` of src/app.py line 232. -/
def total_orders (sales : List SalesRec) : ℤ :=
  (sales.map (fun r => r.qty)).sum

/-- The guarded quotient `avg_order_value = total_revenue / total_orders if total_orders else 0`,
src/app.py line 233. -/
def avg_order_value (sales : List SalesRec) : ℚ :=
  if total_orders sales ≠ 0 then total_revenue sales / (total_orders sales : ℚ)
  else 0

/-- A concrete oracle, for evaluating the generator at specific inputs. -/
def oracle0 : Oracle := ⟨fun _ => 0, fun _ => 0⟩

/-- A concrete seasonal-multiplier function, for concrete evaluations. -/
def seasonal0 : ℤ → ℚ := fun _ => 1

/-- The zero seasonal-multiplier function: keeps concrete witness runs at
the minimum daily order volume. -/
def seasonalZero : ℤ → ℚ := fun _ => 0

/-- Whether an Except value is a success. -/
def exceptIsOk {ε α : Type} : Except ε α → Bool
  | .ok _ => true
  | .error _ => false

/-- The Sales table of a generator result (empty on error). -/
def salesOf (e : Except PyErr ((List SalesRec × List MarketingRec ×
    List SocialRec × List ReviewRec × List String) × ℕ)) : List SalesRec :=
  match e with
  | .ok ((s, _, _, _, _), _) => s
  | .error _ => []

/-- The Marketing table of a generator result (empty on error). -/
def marketingOf (e : Except PyErr ((List SalesRec × List MarketingRec ×
    List SocialRec × List ReviewRec × List String) × ℕ)) : List MarketingRec :=
  match e with
  | .ok ((_, m, _, _, _), _) => m
  | .error _ => []

/-- The Social table of a generator result (empty on error). -/
def socialOf (e : Except PyErr ((List SalesRec × List MarketingRec ×
    List SocialRec × List ReviewRec × List String) × ℕ)) : List SocialRec :=
  match e with
  | .ok ((_, _, so, _, _), _) => so
  | .error _ => []

/-- The Reviews table of a generator result (empty on error). -/
def reviewsOf (e : Except PyErr ((List SalesRec × List MarketingRec ×
    List SocialRec × List ReviewRec × List String) × ℕ)) : List ReviewRec :=
  match e with
  | .ok ((_, _, _, rv, _), _) => rv
  | .error _ => []

/-- A concrete two-day one-brand run of the generator, used to witness the
per-row claims on actual generated tables. -/
def run2 : Except PyErr ((List SalesRec × List MarketingRec ×
    List SocialRec × List ReviewRec × List String) × ℕ) :=
  generate_mock_data oracle0 seasonalZero 0 2 (some ["Radiance"]) 0

/-- First row of the Sales table of the witness run. -/
def wrow3 : SalesRec := (salesOf run2).headD default

/-- Second row of the Sales table of the witness run. -/
def wrow7 : SalesRec := ((salesOf run2).drop 1).headD default

/-- First row of the Marketing table of the witness run. -/
def wrow4 : MarketingRec := (marketingOf run2).headD default

/-- First row of the Social table of the witness run (day one). -/
def wrow5a : SocialRec := (socialOf run2).headD default

/-- Fifth row of the Social table of the witness run (same platform, day
two). -/
def wrow5b : SocialRec := ((socialOf run2).drop 4).headD default

/-- First row of the Reviews table of the witness run. -/
def wrow6 : ReviewRec := (reviewsOf run2).headD default

/-- The per-row Sales invariant claimed by the spec: Revenue is the rounded
product of UnitPrice and Qty, Qty is at least 1, and UnitPrice lies within
`[0.6*base, 1.5*base]` for the base price of the row category. -/
def SalesRowOk (r : SalesRec) : Prop :=
  r.revenue = round2 (r.unitPrice * (r.qty : ℚ)) ∧
  1 ≤ r.qty ∧
  ∃ bp : ℚ, base_price r.category = some bp ∧
    bp * 0.6 ≤ r.unitPrice ∧ r.unitPrice ≤ bp * 1.5

/-- The per-row Marketing invariant claimed by the spec: Traffic in
`[100, 5000]`, CTR in `[0.3, 4.5]`, CPC present exactly for the Paid
channel and then in `[0.3, 2.0]`. -/
def MarketingRowOk (m : MarketingRec) : Prop :=
  100 ≤ m.traffic ∧ m.traffic ≤ 5000 ∧
  (0.3 : ℚ) ≤ m.ctr ∧ m.ctr ≤ 4.5 ∧
  (m.cpc.isSome ↔ m.channel = "Paid") ∧
  ∀ v : ℚ, m.cpc = some v → (0.3 : ℚ) ≤ v ∧ v ≤ 2.0

/-- Relation between a follower-state entry before and after one or more
social updates: same platform, the count never drops, and the new count is
nonnegative. -/
def FollowerStep (pf pf' : String × ℤ) : Prop :=
  pf.1 = pf'.1 ∧ pf.2 ≤ pf'.2 ∧ 0 ≤ pf'.2

/-! ### Basic lemmas about the monadic plumbing and the numeric helpers -/

theorem exceptBind_ok {ε α β : Type} (a : α) (f : α → Except ε β) :
    (Except.ok a >>= f : Except ε β) = f a := rfl

theorem exceptBind_err {ε α β : Type} (e : ε) (f : α → Except ε β) :
    (Except.error e >>= f : Except ε β) = Except.error e := rfl

theorem exceptPure_eq_ok {ε α : Type} (a : α) : (pure a : Except ε α) = .ok a := rfl

theorem floor_le_roundHalfEven (x : ℚ) : ⌊x⌋ ≤ roundHalfEven x := by
  unfold roundHalfEven
  split
  · exact le_refl _
  · split
    · omega
    · split <;> omega

theorem roundHalfEven_le_int (x : ℚ) (n : ℤ) (h : x ≤ (n : ℚ)) :
    roundHalfEven x ≤ n := by
  have h1 : ⌊x⌋ ≤ n := by
    have := (Int.floor_le_floor h).trans_eq (Int.floor_intCast n)
    exact this
  unfold roundHalfEven
  by_cases hlt : Int.fract x < 1/2
  · rw [if_pos hlt]; exact h1
  · have hx : (⌊x⌋ : ℚ) < x := by
      have hge : (1 : ℚ)/2 ≤ x - ⌊x⌋ := by
        have h3 := not_lt.mp hlt
        unfold Int.fract at h3
        linarith
      linarith
    have h2 : ⌊x⌋ < n := by
      exact_mod_cast hx.trans_le h
    rw [if_neg hlt]
    split
    · omega
    · split <;> omega

theorem int_le_roundHalfEven (x : ℚ) (n : ℤ) (h : (n : ℚ) ≤ x) :
    n ≤ roundHalfEven x := by
  have h1 : n ≤ ⌊x⌋ := Int.le_floor.mpr h
  exact h1.trans (floor_le_roundHalfEven x)

theorem round2_le_of_le (x : ℚ) (n : ℤ) (h : x ≤ (n : ℚ) / 100) :
    round2 x ≤ (n : ℚ) / 100 := by
  have h1 : roundHalfEven (100 * x) ≤ n :=
    roundHalfEven_le_int _ n (by linarith)
  unfold round2
  have : (roundHalfEven (100 * x) : ℚ) ≤ (n : ℚ) := by exact_mod_cast h1
  linarith

theorem le_round2_of_le (x : ℚ) (n : ℤ) (h : (n : ℚ) / 100 ≤ x) :
    (n : ℚ) / 100 ≤ round2 x := by
  have h1 : n ≤ roundHalfEven (100 * x) :=
    int_le_roundHalfEven _ n (by linarith)
  unfold round2
  have : (n : ℚ) ≤ (roundHalfEven (100 * x) : ℚ) := by exact_mod_cast h1
  linarith

theorem truncQ_eq_floor {x : ℚ} (h : 0 ≤ x) : truncQ x = ⌊x⌋ := if_pos h

theorem le_truncQ_of_int_le {n : ℤ} {x : ℚ} (h0 : 0 ≤ x) (h : (n : ℚ) ≤ x) :
    n ≤ truncQ x := by
  rw [truncQ_eq_floor h0]
  exact Int.le_floor.mpr h

theorem truncQ_le_of_le {n : ℤ} {x : ℚ} (h0 : 0 ≤ x) (h : x ≤ (n : ℚ)) :
    truncQ x ≤ n := by
  rw [truncQ_eq_floor h0]
  have : (⌊x⌋ : ℚ) ≤ (n : ℚ) := (Int.floor_le x).trans h
  exact_mod_cast this

theorem clamp_le {x lo hi : ℚ} (h : lo ≤ hi) : clamp x lo hi ≤ hi := by
  unfold clamp
  exact max_le h (min_le_left _ _)

theorem le_clamp (x : ℚ) (lo hi : ℚ) : lo ≤ clamp x lo hi := le_max_left _ _

theorem pyUniform_fst_bounds (o : Oracle) {lo hi : ℚ} (c : ℕ) (h : lo ≤ hi) :
    lo ≤ (pyUniform o lo hi c).1 ∧ (pyUniform o lo hi c).1 ≤ hi := by
  unfold pyUniform
  have h1 : 0 ≤ Int.fract (o.q c) := Int.fract_nonneg _
  have h2 : Int.fract (o.q c) < 1 := Int.fract_lt_one _
  constructor
  · simp only
    nlinarith
  · simp only
    nlinarith

theorem pyExponential_fst_nonneg (o : Oracle) {scale : ℚ} (c : ℕ)
    (h : 0 ≤ scale) : 0 ≤ (pyExponential o scale c).1 := by
  unfold pyExponential
  exact mul_nonneg h (abs_nonneg _)

theorem pyRandint_fst_bounds (o : Oracle) {a b : ℤ} (c : ℕ) (h : a ≤ b) :
    a ≤ (pyRandint o a b c).1 ∧ (pyRandint o a b c).1 ≤ b := by
  unfold pyRandint
  have hn : 0 < (b - a + 1).toNat := by omega
  have hm : o.i c % (b - a + 1).toNat < (b - a + 1).toNat := Nat.mod_lt _ hn
  constructor
  · simp only
    omega
  · simp only
    omega

theorem pyChoice_ok_mem {α : Type} {o : Oracle} {xs : List α} {c : ℕ} {x : α}
    {c' : ℕ} (h : pyChoice o xs c = .ok (x, c')) : x ∈ xs := by
  cases xs with
  | nil => simp [pyChoice] at h
  | cons y ys =>
    simp only [pyChoice, Except.ok.injEq, Prod.mk.injEq] at h
    rw [← h.1]
    exact List.get_mem _ _ _

theorem pyChoice_nil {α : Type} (o : Oracle) (c : ℕ) :
    pyChoice o ([] : List α) c = .error .indexError := rfl

theorem pyChoice_ne_nil_ok {α : Type} (o : Oracle) {xs : List α} (c : ℕ)
    (h : xs ≠ []) : ∃ x c', pyChoice o xs c = .ok (x, c') ∧ x ∈ xs := by
  cases xs with
  | nil => exact absurd rfl h
  | cons y ys =>
    refine ⟨_, c + 1, rfl, ?_⟩
    exact List.get_mem _ _ _

theorem pyChoicesK_ok_spec {α : Type} {o : Oracle} {xs : List α} :
    ∀ {k c : ℕ} {ys : List α} {c' : ℕ},
      pyChoicesK o xs k c = .ok (ys, c') →
      ys.length = k ∧ ∀ y ∈ ys, y ∈ xs := by
  intro k
  induction k with
  | zero =>
    intro c ys c' h
    simp only [pyChoicesK, Except.ok.injEq, Prod.mk.injEq] at h
    obtain ⟨h1, _⟩ := h
    subst h1
    simp
  | succ n ih =>
    intro c ys c' h
    unfold pyChoicesK at h
    cases h1 : pyChoice o xs c with
    | error e => simp only [h1, exceptBind_err] at h; exact Except.noConfusion h
    | ok p =>
      obtain ⟨x, c1⟩ := p
      simp only [h1, exceptBind_ok] at h
      cases h2 : pyChoicesK o xs n c1 with
      | error e => simp only [h2, exceptBind_err] at h; exact Except.noConfusion h
      | ok q =>
        obtain ⟨zs, c2⟩ := q
        simp only [h2, exceptBind_ok, exceptPure_eq_ok, Except.ok.injEq,
          Prod.mk.injEq] at h
        obtain ⟨hys, _⟩ := h
        obtain ⟨hlen, hmem⟩ := ih h2
        subst hys
        refine ⟨by simp [hlen], ?_⟩
        intro y hy
        rcases List.mem_cons.mp hy with hy | hy
        · subst hy; exact pyChoice_ok_mem h1
        · exact hmem y hy

theorem pyChoicesK_nil_pos {α : Type} (o : Oracle) {k : ℕ} (c : ℕ) (h : 0 < k) :
    pyChoicesK o ([] : List α) k c = .error .indexError := by
  cases k with
  | zero => omega
  | succ n => rfl

theorem pyChoicesK_ne_nil_ok {α : Type} (o : Oracle) {xs : List α}
    (h : xs ≠ []) : ∀ (k c : ℕ), ∃ ys c', pyChoicesK o xs k c = .ok (ys, c') := by
  intro k
  induction k with
  | zero => intro c; exact ⟨[], c, rfl⟩
  | succ n ih =>
    intro c
    obtain ⟨x, c1, h1, _⟩ := pyChoice_ne_nil_ok o c h
    obtain ⟨ys, c2, h2⟩ := ih c1
    refine ⟨x :: ys, c2, ?_⟩
    unfold pyChoicesK
    simp only [h1, exceptBind_ok, h2, exceptPure_eq_ok]

theorem normalizeDates_ok {α : Type} {l l' : List α}
    (h : normalizeDates l = .ok l') : l' = l := by
  unfold normalizeDates at h
  cases l with
  | nil => simp at h
  | cons x xs => simp only [Except.ok.injEq] at h; exact h.symm

theorem normalizeDates_ne_nil {α : Type} {l : List α} (h : l ≠ []) :
    normalizeDates l = .ok l := by
  unfold normalizeDates
  cases l with
  | nil => exact absurd rfl h
  | cons x xs => rfl

/-! ### C1: behaviour at day count 0 -/

theorem genBrand_nil_dates (o : Oracle) (seasonal : ℤ → ℚ) (b : String) (c : ℕ) :
    genBrand o seasonal b [] c = .error .indexError := by
  unfold genBrand
  cases hfs : initFollowers o social_platforms c with
  | mk fs0 c1 =>
    simp only [hfs, genBrandDays, exceptBind_ok, genReviews]
    rw [pyChoicesK_nil_pos o c1 (by norm_num)]
    rfl

theorem genBrands_cons_nil_dates (o : Oracle) (seasonal : ℤ → ℚ) (b : String)
    (rest : List String) (c : ℕ) :
    genBrands o seasonal (b :: rest) [] c = .error .indexError := by
  unfold genBrands
  rw [genBrand_nil_dates]
  rfl

/-- Claim C1 counterexample: at day count 0 with the (non-empty) brand list
containing Radiance, the generator does not return four empty tables; it
raises IndexError while drawing 120 review dates from the empty horizon. -/
theorem claim_C1_cex :
    generate_mock_data oracle0 seasonal0 0 0 (some ["Radiance"]) 0 =
      .error .indexError := rfl

/-- Claim C1 (amended): for day count 0 and any non-empty brand list, under every
oracle, `generate_mock_data` raises IndexError (from sampling the 120 review
dates out of the empty day horizon) instead of returning tables. -/
theorem claim_C1_amended (o : Oracle) (seasonal : ℤ → ℚ) (start : ℤ)
    (b : String) (rest : List String) (c : ℕ) :
    generate_mock_data o seasonal start 0 (some (b :: rest)) c =
      .error .indexError := by
  have h : genBrands o seasonal (b :: rest) (horizon start (Int.toNat 0)) c =
      .error .indexError := by
    have hh : horizon start (Int.toNat 0) = [] := rfl
    rw [hh]
    exact genBrands_cons_nil_dates o seasonal b rest c
  simp only [generate_mock_data, lt_self_iff_false, if_false, h, exceptBind_err]

/-! ### C2: behaviour at invalid inputs -/

/-- Claim C2: the code has no input validation.  An empty brand list is not
rejected with an invalid-argument signal: generation runs through and then
raises KeyError when normalizing the Date column of the empty Sales table.
A negative day count raises ValueError out of the date-range construction. -/
theorem claim_C2_bug :
    generate_mock_data oracle0 seasonal0 0 90 (some []) 0 = .error .keyError ∧
    generate_mock_data oracle0 seasonal0 0 (-1) (some ["Radiance"]) 0 =
      .error .valueError :=
  ⟨rfl, rfl⟩

/-! ### C9: the downstream average-order-value guard -/

/-- Claim C9: the average-order-value computation is guarded against zero
orders: when the total order count is zero it reports 0 instead of dividing,
and otherwise it is the quotient of total revenue by total orders. -/
theorem claim_C9 (sales : List SalesRec) (h : total_orders sales = 0) :
    avg_order_value sales = 0 := by
  unfold avg_order_value
  rw [if_neg]
  simp [h]

/-- Witness for C9 at the concrete empty table. -/
theorem claim_C9_witness :
    total_orders [] = 0 ∧ avg_order_value [] = 0 :=
  ⟨rfl, claim_C9 [] rfl⟩

/-! ### Row invariants of the sales and marketing generators -/

theorem base_price_pos {cat : String} {bp : ℚ} (h : base_price cat = some bp) :
    0 < bp := by
  unfold base_price at h
  repeat' split at h
  all_goals first
    | (simp only [Option.some.injEq] at h; subst h; norm_num)
    | exact Option.noConfusion h

theorem genOrder_spec {o : Oracle} {brand : String} {date : ℤ} {camp : String}
    {c : ℕ} {r : SalesRec} {c' : ℕ}
    (h : genOrder o brand date camp c = .ok (r, c')) :
    r.brand = brand ∧ r.date = date ∧ r.campaign = camp ∧ SalesRowOk r := by
  unfold genOrder at h
  cases hw : cat_weights brand with
  | none => simp only [hw, dictGet, exceptBind_err] at h; exact Except.noConfusion h
  | some w =>
    simp only [hw, dictGet, exceptBind_ok] at h
    cases h1 : pyChoicesW o cats w c with
    | error e => simp only [h1, exceptBind_err] at h; exact Except.noConfusion h
    | ok p1 =>
      obtain ⟨cat, c1⟩ := p1
      simp only [h1, exceptBind_ok] at h
      cases h2 : categories.lookup cat with
      | none => simp only [h2, dictGet, exceptBind_err] at h; exact Except.noConfusion h
      | some prods =>
        simp only [h2, dictGet, exceptBind_ok] at h
        cases h3 : pyChoice o prods c1 with
        | error e => simp only [h3, exceptBind_err] at h; exact Except.noConfusion h
        | ok p2 =>
          obtain ⟨prod, c2⟩ := p2
          simp only [h3, exceptBind_ok] at h
          cases h4 : pyChoicesW o channels [0.6, 0.3, 0.1] c2 with
          | error e => simp only [h4, exceptBind_err] at h; exact Except.noConfusion h
          | ok p3 =>
            obtain ⟨channel, c3⟩ := p3
            simp only [h4, exceptBind_ok] at h
            cases h5 : pyChoicesW o offers [0.7, 0.15, 0.1, 0.05] c3 with
            | error e => simp only [h5, exceptBind_err] at h; exact Except.noConfusion h
            | ok p4 =>
              obtain ⟨offer, c4⟩ := p4
              simp only [h5, exceptBind_ok] at h
              cases hbp : base_price cat with
              | none =>
                simp only [hbp, dictGet, exceptBind_err] at h
                exact Except.noConfusion h
              | some bp =>
                have hbp0 : 0 < bp := base_price_pos hbp
                simp only [hbp, dictGet, exceptBind_ok, pyNormal, pyExponential,
                  exceptPure_eq_ok, Except.ok.injEq, Prod.mk.injEq] at h
                obtain ⟨hr, _⟩ := h
                subst hr
                refine ⟨rfl, rfl, rfl, rfl, le_max_left _ _, bp, hbp, ?_, ?_⟩
                · exact le_clamp _ _ _
                · exact clamp_le (by linarith)

theorem genOrders_spec {o : Oracle} {brand : String} {date : ℤ} {camp : String} :
    ∀ {n c : ℕ} {rs : List SalesRec} {c' : ℕ},
      genOrders o brand date camp n c = .ok (rs, c') →
      rs.length = n ∧
        ∀ r ∈ rs, r.brand = brand ∧ r.date = date ∧ r.campaign = camp ∧
          SalesRowOk r := by
  intro n
  induction n with
  | zero =>
    intro c rs c' h
    simp only [genOrders, Except.ok.injEq, Prod.mk.injEq] at h
    obtain ⟨h1, _⟩ := h
    subst h1
    simp
  | succ n ih =>
    intro c rs c' h
    unfold genOrders at h
    cases h1 : genOrder o brand date camp c with
    | error e => simp only [h1, exceptBind_err] at h; exact Except.noConfusion h
    | ok p =>
      obtain ⟨r, c1⟩ := p
      simp only [h1, exceptBind_ok] at h
      cases h2 : genOrders o brand date camp n c1 with
      | error e => simp only [h2, exceptBind_err] at h; exact Except.noConfusion h
      | ok q =>
        obtain ⟨zs, c2⟩ := q
        simp only [h2, exceptBind_ok, exceptPure_eq_ok, Except.ok.injEq,
          Prod.mk.injEq] at h
        obtain ⟨hrs, _⟩ := h
        obtain ⟨hlen, hmem⟩ := ih h2
        subst hrs
        refine ⟨by simp [hlen], ?_⟩
        intro x hx
        rcases List.mem_cons.mp hx with hx | hx
        · subst hx; exact genOrder_spec h1
        · exact hmem x hx

theorem genMarketingOne_spec {o : Oracle} {brand : String} {date : ℤ}
    {camp : String} {sm : ℚ} {ch : String} {c : ℕ} {m : MarketingRec} {c' : ℕ}
    (h : genMarketingOne o brand date camp sm ch c = .ok (m, c')) :
    m.brand = brand ∧ m.date = date ∧ m.campaign = camp ∧ m.channel = ch ∧
      MarketingRowOk m := by
  unfold genMarketingOne at h
  cases hbt : base_traffic ch with
  | none => simp only [hbt, dictGet, exceptBind_err] at h; exact Except.noConfusion h
  | some bt =>
    simp only [hbt, dictGet, exceptBind_ok, pyNormal] at h
    set traw := bt * sm + bt * 0.1 * o.q c with htraw
    have htr1 : (100 : ℚ) ≤ clamp traw 100 5000 := le_clamp _ _ _
    have htr2 : clamp traw 100 5000 ≤ 5000 := clamp_le (by norm_num)
    have htrunc1 : (100 : ℤ) ≤ truncQ (clamp traw 100 5000) :=
      le_truncQ_of_int_le (by linarith) (by exact_mod_cast htr1)
    have htrunc2 : truncQ (clamp traw 100 5000) ≤ (5000 : ℤ) :=
      truncQ_le_of_le (by linarith) (by exact_mod_cast htr2)
    have hu1 := pyUniform_fst_bounds o (c + 1) (by norm_num : (0.3 : ℚ) ≤ 4.5)
    have hctr1 : (0.3 : ℚ) ≤ round2 (pyUniform o 0.3 4.5 (c + 1)).1 := by
      have h30 : ((30 : ℤ) : ℚ) / 100 ≤ (pyUniform o 0.3 4.5 (c + 1)).1 := by
        have := hu1.1; push_cast; linarith
      have := le_round2_of_le _ 30 h30
      push_cast at this; linarith
    have hctr2 : round2 (pyUniform o 0.3 4.5 (c + 1)).1 ≤ 4.5 := by
      have h450 : (pyUniform o 0.3 4.5 (c + 1)).1 ≤ ((450 : ℤ) : ℚ) / 100 := by
        have := hu1.2; push_cast; linarith
      have := round2_le_of_le _ 450 h450
      push_cast at this; linarith
    by_cases hch : ch = "Paid"
    · rw [if_pos hch] at h
      simp only [pyUniform, exceptPure_eq_ok, Except.ok.injEq, Prod.mk.injEq] at h
      obtain ⟨hm, _⟩ := h
      subst hm
      have hu2 := pyUniform_fst_bounds o (c + 1 + 1) (by norm_num : (0.3 : ℚ) ≤ 2.0)
      refine ⟨rfl, rfl, rfl, hch ▸ rfl, htrunc1, htrunc2, ?_, ?_, ?_, ?_⟩
      · simpa [pyUniform] using hctr1
      · simpa [pyUniform] using hctr2
      · simp [hch]
      · intro v hv
        simp only [Option.some.injEq] at hv
        subst hv
        constructor
        · have h30 : ((30 : ℤ) : ℚ) / 100 ≤ (pyUniform o 0.3 2.0 (c + 1 + 1)).1 := by
            have := hu2.1; push_cast; linarith
          have := le_round2_of_le _ 30 h30
          simp only [pyUniform] at this ⊢
          push_cast at this; linarith
        · have h200 : (pyUniform o 0.3 2.0 (c + 1 + 1)).1 ≤ ((200 : ℤ) : ℚ) / 100 := by
            have := hu2.2; push_cast; linarith
          have := round2_le_of_le _ 200 h200
          simp only [pyUniform] at this ⊢
          push_cast at this; linarith
    · rw [if_neg hch] at h
      simp only [pyUniform, exceptPure_eq_ok, Except.ok.injEq, Prod.mk.injEq] at h
      obtain ⟨hm, _⟩ := h
      subst hm
      refine ⟨rfl, rfl, rfl, rfl, htrunc1, htrunc2, ?_, ?_, ?_, ?_⟩
      · simpa [pyUniform] using hctr1
      · simpa [pyUniform] using hctr2
      · simp [hch]
      · intro v hv
        exact absurd hv (by simp)

theorem genMarketingList_spec {o : Oracle} {brand : String} {date : ℤ}
    {camp : String} {sm : ℚ} :
    ∀ {chs : List String} {c : ℕ} {ms : List MarketingRec} {c' : ℕ},
      genMarketingList o brand date camp sm chs c = .ok (ms, c') →
      ∀ m ∈ ms, m.brand = brand ∧ m.date = date ∧ m.campaign = camp ∧
        MarketingRowOk m := by
  intro chs
  induction chs with
  | nil =>
    intro c ms c' h
    simp only [genMarketingList, Except.ok.injEq, Prod.mk.injEq] at h
    obtain ⟨h1, _⟩ := h
    subst h1
    simp
  | cons ch rest ih =>
    intro c ms c' h
    unfold genMarketingList at h
    cases h1 : genMarketingOne o brand date camp sm ch c with
    | error e => simp only [h1, exceptBind_err] at h; exact Except.noConfusion h
    | ok p =>
      obtain ⟨m0, c1⟩ := p
      simp only [h1, exceptBind_ok] at h
      cases h2 : genMarketingList o brand date camp sm rest c1 with
      | error e => simp only [h2, exceptBind_err] at h; exact Except.noConfusion h
      | ok q =>
        obtain ⟨ms0, c2⟩ := q
        simp only [h2, exceptBind_ok, exceptPure_eq_ok, Except.ok.injEq,
          Prod.mk.injEq] at h
        obtain ⟨hms, _⟩ := h
        subst hms
        intro m hm
        rcases List.mem_cons.mp hm with hm | hm
        · subst hm
          obtain ⟨ha, hb, hc, _, hd⟩ := genMarketingOne_spec h1
          exact ⟨ha, hb, hc, hd⟩
        · exact ih h2 m hm

/-! ### The social generator and the follower state -/

theorem followerStep_keys : ∀ {fs fs' : List (String × ℤ)},
    List.Forall₂ FollowerStep fs fs' → fs'.map Prod.fst = fs.map Prod.fst := by
  intro fs fs' h
  induction h with
  | nil => rfl
  | cons ha _ ih => simp only [List.map_cons, ih, ha.1]

theorem followerStep_nonneg {fs fs' : List (String × ℤ)}
    (h : List.Forall₂ FollowerStep fs fs') : ∀ pf ∈ fs', 0 ≤ pf.2 := by
  induction h with
  | nil => simp
  | cons ha _ ih =>
    intro pf hpf
    rcases List.mem_cons.mp hpf with hpf | hpf
    · subst hpf; exact ha.2.2
    · exact ih pf hpf

theorem followerStep_mem_right {fs fs' : List (String × ℤ)}
    (h : List.Forall₂ FollowerStep fs fs') {p : String} {f1 : ℤ}
    (hm : (p, f1) ∈ fs') : ∃ f0, (p, f0) ∈ fs ∧ f0 ≤ f1 := by
  induction h with
  | nil => simp at hm
  | cons ha _ ih =>
    rename_i a b l1 l2 _
    rcases List.mem_cons.mp hm with hm | hm
    · have hb : b = (p, f1) := hm.symm
      subst hb
      refine ⟨a.2, ?_, ha.2.1⟩
      have hpa : (p, a.2) = a := Prod.ext ha.1.symm rfl
      rw [hpa]
      exact List.mem_cons_self _ _
    · obtain ⟨f0, hf0, hle⟩ := ih hm
      exact ⟨f0, List.mem_cons_of_mem _ hf0, hle⟩

theorem followerStep_trans : ∀ {fs1 fs2 fs3 : List (String × ℤ)},
    List.Forall₂ FollowerStep fs1 fs2 → List.Forall₂ FollowerStep fs2 fs3 →
    List.Forall₂ FollowerStep fs1 fs3 := by
  intro fs1 fs2 fs3 h12
  induction h12 generalizing fs3 with
  | nil =>
    intro h23
    cases h23
    exact List.Forall₂.nil
  | cons ha hl ih =>
    intro h23
    cases h23 with
    | cons hb hl2 =>
      exact List.Forall₂.cons
        ⟨ha.1.trans hb.1, ha.2.1.trans hb.2.1, hb.2.2⟩ (ih hl2)

theorem keys_nodup_mem_unique {fs : List (String × ℤ)}
    (hnd : (fs.map Prod.fst).Nodup) {p : String} {a b : ℤ}
    (ha : (p, a) ∈ fs) (hb : (p, b) ∈ fs) : a = b := by
  induction fs with
  | nil => simp at ha
  | cons pf rest ih =>
    simp only [List.map_cons, List.nodup_cons] at hnd
    rcases List.mem_cons.mp ha with ha | ha <;>
      rcases List.mem_cons.mp hb with hb | hb
    · rw [← ha] at hb
      injection hb with h1 h2
      exact h2.symm
    · exfalso
      apply hnd.1
      rw [← ha]
      exact List.mem_map.mpr ⟨(p, b), hb, rfl⟩
    · exfalso
      apply hnd.1
      rw [← hb]
      exact List.mem_map.mpr ⟨(p, a), ha, rfl⟩
    · exact ih hnd.2 ha hb

theorem genSocialList_spec {o : Oracle} {b : String} {d : ℤ} :
    ∀ {fs : List (String × ℤ)} {c : ℕ} {recs : List SocialRec}
      {fs' : List (String × ℤ)} {c' : ℕ},
      genSocialList o b d fs c = (recs, fs', c') →
      (∀ pf ∈ fs, 0 ≤ pf.2) →
      List.Forall₂ FollowerStep fs fs' ∧
        ∀ r ∈ recs, r.brand = b ∧ r.date = d ∧ (r.platform, r.followers) ∈ fs' := by
  intro fs
  induction fs with
  | nil =>
    intro c recs fs' c' h hfs
    simp only [genSocialList, Prod.mk.injEq] at h
    obtain ⟨h1, h2, _⟩ := h
    subst h1
    subst h2
    exact ⟨List.Forall₂.nil, by simp⟩
  | cons pf rest ih =>
    obtain ⟨p, f⟩ := pf
    intro c recs fs' c' h hfs
    have hf0 : (0 : ℤ) ≤ f := hfs (p, f) (List.mem_cons_self _ _)
    unfold genSocialList at h
    cases hg : pyUniform o 1.0005 1.003 c with
    | mk g c1 =>
      have hgb := pyUniform_fst_bounds o c (by norm_num : (1.0005 : ℚ) ≤ 1.003)
      rw [hg] at hgb
      simp only at hgb
      cases hu : pyUniform o 0.5 8.5 c1 with
      | mk u c2 =>
        cases hrec : genSocialList o b d rest c2 with
        | mk recs0 q =>
          obtain ⟨rest2, c3⟩ := q
          simp only [hg, hu, hrec, Prod.mk.injEq] at h
          obtain ⟨h1, h2, _⟩ := h
          subst h1
          subst h2
          have hfq : (0 : ℚ) ≤ (f : ℚ) := by exact_mod_cast hf0
          have hmul : (f : ℚ) ≤ (f : ℚ) * g := by nlinarith
          have hmul0 : (0 : ℚ) ≤ (f : ℚ) * g := by nlinarith
          have hstep : FollowerStep (p, f) (p, truncQ ((f : ℚ) * g)) := by
            refine ⟨rfl, ?_, ?_⟩
            · exact le_truncQ_of_int_le hmul0 hmul
            · exact le_truncQ_of_int_le hmul0 (by exact_mod_cast hmul0)
          obtain ⟨hforall, hmem⟩ :=
            ih hrec (fun q hq => hfs q (List.mem_cons_of_mem _ hq))
          refine ⟨List.Forall₂.cons hstep hforall, ?_⟩
          intro r hr
          rcases List.mem_cons.mp hr with hr | hr
          · subst hr
            exact ⟨rfl, rfl, List.mem_cons_self _ _⟩
          · obtain ⟨hb1, hd1, hm1⟩ := hmem r hr
            exact ⟨hb1, hd1, List.mem_cons_of_mem _ hm1⟩

/-! ### The per-day and per-horizon invariants -/

theorem genBrandDay_spec {o : Oracle} {seasonal : ℤ → ℚ} {b : String} {d : ℤ}
    {fs : List (String × ℤ)} {c : ℕ} {s : List SalesRec}
    {m : List MarketingRec} {so : List SocialRec} {fs2 : List (String × ℤ)}
    {c' : ℕ}
    (h : genBrandDay o seasonal b d fs c = .ok ((s, m, so, fs2), c'))
    (hfs : ∀ pf ∈ fs, 0 ≤ pf.2) :
    (∃ camp, camp ∈ campaigns ∧
      (∀ r ∈ s, r.brand = b ∧ r.date = d ∧ r.campaign = camp ∧ SalesRowOk r) ∧
      (∀ x ∈ m, x.brand = b ∧ x.date = d ∧ x.campaign = camp ∧
        MarketingRowOk x)) ∧
    (40 ≤ s.length ∧ s.length ≤ 150) ∧
    (∀ r ∈ so, r.brand = b ∧ r.date = d ∧ (r.platform, r.followers) ∈ fs2) ∧
    List.Forall₂ FollowerStep fs fs2 := by
  unfold genBrandDay at h
  cases hnd : pyNormal o (80 * seasonal d * weekday_factor d) 15 c with
  | mk nd c1 =>
    simp only [hnd] at h
    cases hcp : pyChoice o campaigns c1 with
    | error e => simp only [hcp, exceptBind_err] at h; exact Except.noConfusion h
    | ok p1 =>
      obtain ⟨camp, c2⟩ := p1
      simp only [hcp, exceptBind_ok] at h
      cases hor : genOrders o b d camp (truncQ (clamp nd 40 150)).toNat c2 with
      | error e => simp only [hor, exceptBind_err] at h; exact Except.noConfusion h
      | ok p2 =>
        obtain ⟨srecs, c3⟩ := p2
        simp only [hor, exceptBind_ok] at h
        cases hmk : genMarketingList o b d camp (seasonal d) marketing_channels c3 with
        | error e => simp only [hmk, exceptBind_err] at h; exact Except.noConfusion h
        | ok p3 =>
          obtain ⟨mrecs, c4⟩ := p3
          simp only [hmk, exceptBind_ok] at h
          cases hsoc : genSocialList o b d fs c4 with
          | mk socrecs q =>
            obtain ⟨fsx, c5⟩ := q
            simp only [hsoc, exceptPure_eq_ok, Except.ok.injEq, Prod.mk.injEq] at h
            obtain ⟨⟨hs, hm, hso, hfs2⟩, _⟩ := h
            subst hs
            subst hm
            subst hso
            subst hfs2
            have hclamp1 : (40 : ℚ) ≤ clamp nd 40 150 := le_clamp _ _ _
            have hclamp2 : clamp nd 40 150 ≤ 150 := clamp_le (by norm_num)
            have hdo1 : (40 : ℤ) ≤ truncQ (clamp nd 40 150) :=
              le_truncQ_of_int_le (by linarith) (by exact_mod_cast hclamp1)
            have hdo2 : truncQ (clamp nd 40 150) ≤ (150 : ℤ) :=
              truncQ_le_of_le (by linarith) (by exact_mod_cast hclamp2)
            obtain ⟨hlen, hsall⟩ := genOrders_spec hor
            obtain ⟨hsoc1, hsoc2⟩ := genSocialList_spec hsoc hfs
            refine ⟨⟨camp, pyChoice_ok_mem hcp, ?_, ?_⟩, ⟨?_, ?_⟩, hsoc2, hsoc1⟩
            · intro r hr
              exact hsall r hr
            · intro x hx
              exact genMarketingList_spec hmk x hx
            · rw [hlen]; omega
            · rw [hlen]; omega

theorem genBrandDays_spec {o : Oracle} {seasonal : ℤ → ℚ} {b : String} :
    ∀ {dates : List ℤ} {fs : List (String × ℤ)} {c : ℕ}
      {s : List SalesRec} {m : List MarketingRec} {so : List SocialRec}
      {fs' : List (String × ℤ)} {c' : ℕ},
      genBrandDays o seasonal b dates fs c = .ok ((s, m, so, fs'), c') →
      List.Pairwise (· < ·) dates →
      (∀ pf ∈ fs, 0 ≤ pf.2) →
      (fs.map Prod.fst).Nodup →
      (∀ r ∈ s, r.brand = b ∧ r.date ∈ dates ∧ SalesRowOk r) ∧
      (∀ x ∈ m, x.brand = b ∧ x.date ∈ dates ∧ MarketingRowOk x) ∧
      (∀ d : ℤ, ∃ camp, camp ∈ campaigns ∧
        (∀ r ∈ s, r.date = d → r.campaign = camp) ∧
        (∀ x ∈ m, x.date = d → x.campaign = camp)) ∧
      (∀ d ∈ dates, 40 ≤ s.countP (fun r => r.date == d) ∧
        s.countP (fun r => r.date == d) ≤ 150) ∧
      (∀ r ∈ so, r.brand = b ∧ r.date ∈ dates ∧
        ∃ f0, (r.platform, f0) ∈ fs ∧ f0 ≤ r.followers) ∧
      (∀ r1 ∈ so, ∀ r2 ∈ so, r1.platform = r2.platform → r1.date < r2.date →
        r1.followers ≤ r2.followers) ∧
      List.Forall₂ FollowerStep fs fs' := by
  intro dates
  induction dates with
  | nil =>
    intro fs c s m so fs' c' h hpw hfs hnd
    simp only [genBrandDays, Except.ok.injEq, Prod.mk.injEq] at h
    obtain ⟨⟨hs, hm, hso, hfs'⟩, _⟩ := h
    subst hs
    subst hm
    subst hso
    subst hfs'
    refine ⟨by simp, by simp, ?_, by simp, by simp, by simp, ?_⟩
    · intro d
      exact ⟨"Summer Glow", by simp [campaigns], by simp, by simp⟩
    · exact List.forall₂_same.mpr (fun pf hpf => ⟨rfl, le_refl _, hfs pf hpf⟩)
  | cons d0 rest ih =>
    intro fs c s m so fs' c' h hpw hfs hnd
    unfold genBrandDays at h
    cases h1 : genBrandDay o seasonal b d0 fs c with
    | error e => simp only [h1, exceptBind_err] at h; exact Except.noConfusion h
    | ok p =>
      obtain ⟨⟨s1, m1, so1, fs1⟩, c1⟩ := p
      simp only [h1, exceptBind_ok] at h
      cases h2 : genBrandDays o seasonal b rest fs1 c1 with
      | error e => simp only [h2, exceptBind_err] at h; exact Except.noConfusion h
      | ok q =>
        obtain ⟨⟨s2, m2, so2, fs2⟩, c2⟩ := q
        simp only [h2, exceptBind_ok, exceptPure_eq_ok, Except.ok.injEq,
          Prod.mk.injEq] at h
        obtain ⟨⟨hs, hm, hso, hfs2⟩, _⟩ := h
        subst hs
        subst hm
        subst hso
        subst hfs2
        obtain ⟨⟨camp0, hcamp0, hs1, hm1⟩, ⟨hlen1, hlen2⟩, hso1, hstep1⟩ :=
          genBrandDay_spec h1 hfs
        have hfs1nonneg : ∀ pf ∈ fs1, 0 ≤ pf.2 := followerStep_nonneg hstep1
        have hnd1 : (fs1.map Prod.fst).Nodup := by
          rw [followerStep_keys hstep1]; exact hnd
        have hd0lt : ∀ d ∈ rest, d0 < d := (List.pairwise_cons.mp hpw).1
        obtain ⟨ihs, ihm, ihcamp, ihcount, ihso, ihmono, ihstep⟩ :=
          ih h2 hpw.of_cons hfs1nonneg hnd1
        refine ⟨?_, ?_, ?_, ?_, ?_, ?_, followerStep_trans hstep1 ihstep⟩
        · intro r hr
          rcases List.mem_append.mp hr with hr | hr
          · obtain ⟨ha, hb, _, hc⟩ := hs1 r hr
            exact ⟨ha, by rw [hb]; exact List.mem_cons_self _ _, hc⟩
          · obtain ⟨ha, hb, hc⟩ := ihs r hr
            exact ⟨ha, List.mem_cons_of_mem _ hb, hc⟩
        · intro x hx
          rcases List.mem_append.mp hx with hx | hx
          · obtain ⟨ha, hb, _, hc⟩ := hm1 x hx
            exact ⟨ha, by rw [hb]; exact List.mem_cons_self _ _, hc⟩
          · obtain ⟨ha, hb, hc⟩ := ihm x hx
            exact ⟨ha, List.mem_cons_of_mem _ hb, hc⟩
        · intro d
          by_cases hd : d = d0
          · subst hd
            refine ⟨camp0, hcamp0, ?_, ?_⟩
            · intro r hr hrd
              rcases List.mem_append.mp hr with hr | hr
              · exact (hs1 r hr).2.2.1
              · exfalso
                have := (ihs r hr).2.1
                exact absurd hrd (by have := hd0lt _ this; omega)
            · intro x hx hxd
              rcases List.mem_append.mp hx with hx | hx
              · exact (hm1 x hx).2.2.1
              · exfalso
                have := (ihm x hx).2.1
                exact absurd hxd (by have := hd0lt _ this; omega)
          · obtain ⟨camp, hcampmem, hcs, hcm⟩ := ihcamp d
            refine ⟨camp, hcampmem, ?_, ?_⟩
            · intro r hr hrd
              rcases List.mem_append.mp hr with hr | hr
              · exact absurd (hrd.symm.trans (hs1 r hr).2.1) hd
              · exact hcs r hr hrd
            · intro x hx hxd
              rcases List.mem_append.mp hx with hx | hx
              · exact absurd (hxd.symm.trans (hm1 x hx).2.1) hd
              · exact hcm x hx hxd
        · intro d hd
          rw [List.countP_append]
          rcases List.mem_cons.mp hd with hd | hd
          · subst hd
            have hc1 : s1.countP (fun r => r.date == d) = s1.length :=
              List.countP_eq_length.mpr (fun r hr => by
                simp only [beq_iff_eq]
                exact (hs1 r hr).2.1)
            have hc2 : s2.countP (fun r => r.date == d) = 0 :=
              List.countP_eq_zero.mpr (fun r hr => by
                simp only [beq_iff_eq]
                have := hd0lt _ (ihs r hr).2.1
                omega)
            rw [hc1, hc2]
            omega
          · have hc1 : s1.countP (fun r => r.date == d) = 0 :=
              List.countP_eq_zero.mpr (fun r hr => by
                simp only [beq_iff_eq]
                have h3 := (hs1 r hr).2.1
                have := hd0lt _ hd
                omega)
            obtain ⟨hb1, hb2⟩ := ihcount d hd
            rw [hc1]
            omega
        · intro r hr
          rcases List.mem_append.mp hr with hr | hr
          · obtain ⟨ha, hb, hc⟩ := hso1 r hr
            obtain ⟨f0, hf0, hle⟩ := followerStep_mem_right hstep1 hc
            exact ⟨ha, by rw [hb]; exact List.mem_cons_self _ _, f0, hf0, hle⟩
          · obtain ⟨ha, hb, f0, hf0, hle⟩ := ihso r hr
            obtain ⟨f00, hf00, hle2⟩ := followerStep_mem_right hstep1 hf0
            exact ⟨ha, List.mem_cons_of_mem _ hb, f00, hf00, by omega⟩
        · intro r1 hr1 r2 hr2 hp hdlt
          rcases List.mem_append.mp hr1 with hr1 | hr1 <;>
            rcases List.mem_append.mp hr2 with hr2 | hr2
          · exfalso
            have e1 := (hso1 r1 hr1).2.1
            have e2 := (hso1 r2 hr2).2.1
            omega
          · have e1 := hso1 r1 hr1
            obtain ⟨_, _, f0, hf0, hle⟩ := ihso r2 hr2
            rw [← hp] at hf0
            have := keys_nodup_mem_unique hnd1 e1.2.2 hf0
            omega
          · exfalso
            have e2 := (hso1 r2 hr2).2.1
            have e1 := (ihso r1 hr1).2.1
            have := hd0lt _ e1
            omega
          · exact ihmono r1 hr1 r2 hr2 hp hdlt

/-! ### The reviews generator and the per-brand block -/

theorem genReviewRow_spec {o : Oracle} {b : String} {d : ℤ} {c : ℕ}
    {r : ReviewRec} {c' : ℕ} (h : genReviewRow o b d c = .ok (r, c')) :
    r.brand = b ∧ r.date = d := by
  unfold genReviewRow at h
  cases h1 : pyChoicesW o sentiments [0.7, 0.2, 0.1] c with
  | error e => simp only [h1, exceptBind_err] at h; exact Except.noConfusion h
  | ok p =>
    obtain ⟨sent, c1⟩ := p
    simp only [h1, exceptBind_ok, pyRandint] at h
    cases h2 : ([("Positive", (pyRandint o 4 5 c1).1), ("Neutral", (3 : ℤ)),
        ("Negative", (pyRandint o 1 2 (c1 + 1)).1)].lookup sent) with
    | none =>
      simp only [pyRandint] at h2
      simp only [h2, dictGet, exceptBind_err] at h
      exact Except.noConfusion h
    | some rat =>
      simp only [pyRandint] at h2
      simp only [h2, dictGet, exceptBind_ok, exceptPure_eq_ok,
        Except.ok.injEq, Prod.mk.injEq] at h
      obtain ⟨hr, _⟩ := h
      subst hr
      exact ⟨rfl, rfl⟩

theorem genReviewRows_spec {o : Oracle} {b : String} :
    ∀ {ds : List ℤ} {c : ℕ} {rv : List ReviewRec} {c' : ℕ},
      genReviewRows o b ds c = .ok (rv, c') →
      rv.length = ds.length ∧ ∀ r ∈ rv, r.brand = b ∧ r.date ∈ ds := by
  intro ds
  induction ds with
  | nil =>
    intro c rv c' h
    simp only [genReviewRows, Except.ok.injEq, Prod.mk.injEq] at h
    obtain ⟨h1, _⟩ := h
    subst h1
    simp
  | cons d rest ih =>
    intro c rv c' h
    unfold genReviewRows at h
    cases h1 : genReviewRow o b d c with
    | error e => simp only [h1, exceptBind_err] at h; exact Except.noConfusion h
    | ok p =>
      obtain ⟨r0, c1⟩ := p
      simp only [h1, exceptBind_ok] at h
      cases h2 : genReviewRows o b rest c1 with
      | error e => simp only [h2, exceptBind_err] at h; exact Except.noConfusion h
      | ok q =>
        obtain ⟨rs, c2⟩ := q
        simp only [h2, exceptBind_ok, exceptPure_eq_ok, Except.ok.injEq,
          Prod.mk.injEq] at h
        obtain ⟨hrv, _⟩ := h
        obtain ⟨hlen, hmem⟩ := ih h2
        subst hrv
        refine ⟨by simp [hlen], ?_⟩
        intro r hr
        rcases List.mem_cons.mp hr with hr | hr
        · subst hr
          obtain ⟨ha, hb⟩ := genReviewRow_spec h1
          exact ⟨ha, by rw [hb]; exact List.mem_cons_self _ _⟩
        · obtain ⟨ha, hb⟩ := hmem r hr
          exact ⟨ha, List.mem_cons_of_mem _ hb⟩

theorem genReviews_spec {o : Oracle} {b : String} {dates : List ℤ} {c : ℕ}
    {rv : List ReviewRec} {c' : ℕ}
    (h : genReviews o b dates c = .ok (rv, c')) :
    rv.length = 120 ∧ ∀ r ∈ rv, r.brand = b ∧ r.date ∈ dates := by
  unfold genReviews at h
  cases h1 : pyChoicesK o dates 120 c with
  | error e => simp only [h1, exceptBind_err] at h; exact Except.noConfusion h
  | ok p =>
    obtain ⟨rdates, c1⟩ := p
    simp only [h1, exceptBind_ok] at h
    obtain ⟨hdlen, hdmem⟩ := pyChoicesK_ok_spec h1
    obtain ⟨hlen, hmem⟩ := genReviewRows_spec h
    refine ⟨by rw [hlen, hdlen], ?_⟩
    intro r hr
    obtain ⟨ha, hb⟩ := hmem r hr
    exact ⟨ha, hdmem _ hb⟩

theorem initFollowers_spec {o : Oracle} :
    ∀ {ps : List String} {c : ℕ} {fs : List (String × ℤ)} {c' : ℕ},
      initFollowers o ps c = (fs, c') →
      fs.map Prod.fst = ps ∧ ∀ pf ∈ fs, 0 ≤ pf.2 := by
  intro ps
  induction ps with
  | nil =>
    intro c fs c' h
    simp only [initFollowers, Prod.mk.injEq] at h
    obtain ⟨h1, _⟩ := h
    subst h1
    simp
  | cons p rest ih =>
    intro c fs c' h
    unfold initFollowers at h
    cases h1 : initFollowers o rest (c + 1) with
    | mk fs0 c2 =>
      simp only [pyRandint, h1, Prod.mk.injEq] at h
      obtain ⟨hfs, _⟩ := h
      have h2 : initFollowers o rest (c + 1) = (fs0, c2) := h1
      obtain ⟨hkeys, hnn⟩ := ih h2
      subst hfs
      refine ⟨by simp [hkeys], ?_⟩
      intro pf hpf
      rcases List.mem_cons.mp hpf with hpf | hpf
      · subst hpf
        simp only
        positivity
      · exact hnn pf hpf

theorem genBrand_spec {o : Oracle} {seasonal : ℤ → ℚ} {b : String}
    {dates : List ℤ} {c : ℕ} {s : List SalesRec} {m : List MarketingRec}
    {so : List SocialRec} {rv : List ReviewRec} {c' : ℕ}
    (h : genBrand o seasonal b dates c = .ok ((s, m, so, rv), c'))
    (hpw : List.Pairwise (· < ·) dates) :
    (∀ r ∈ s, r.brand = b ∧ r.date ∈ dates ∧ SalesRowOk r) ∧
    (∀ x ∈ m, x.brand = b ∧ x.date ∈ dates ∧ MarketingRowOk x) ∧
    (∀ d : ℤ, ∃ camp, camp ∈ campaigns ∧
      (∀ r ∈ s, r.date = d → r.campaign = camp) ∧
      (∀ x ∈ m, x.date = d → x.campaign = camp)) ∧
    (∀ d ∈ dates, 40 ≤ s.countP (fun r => r.date == d) ∧
      s.countP (fun r => r.date == d) ≤ 150) ∧
    (∀ r ∈ so, r.brand = b ∧ r.date ∈ dates) ∧
    (∀ r1 ∈ so, ∀ r2 ∈ so, r1.platform = r2.platform → r1.date < r2.date →
      r1.followers ≤ r2.followers) ∧
    (rv.length = 120 ∧ ∀ r ∈ rv, r.brand = b ∧ r.date ∈ dates) := by
  unfold genBrand at h
  cases h0 : initFollowers o social_platforms c with
  | mk fs0 c1 =>
    simp only [h0] at h
    obtain ⟨hkeys, hnn⟩ := initFollowers_spec h0
    have hnd : (fs0.map Prod.fst).Nodup := by
      rw [hkeys]
      decide
    cases h1 : genBrandDays o seasonal b dates fs0 c1 with
    | error e => simp only [h1, exceptBind_err] at h; exact Except.noConfusion h
    | ok p =>
      obtain ⟨⟨s0, m0, so0, fsx⟩, c2⟩ := p
      simp only [h1, exceptBind_ok] at h
      cases h2 : genReviews o b dates c2 with
      | error e => simp only [h2, exceptBind_err] at h; exact Except.noConfusion h
      | ok q =>
        obtain ⟨rv0, c3⟩ := q
        simp only [h2, exceptBind_ok, exceptPure_eq_ok, Except.ok.injEq,
          Prod.mk.injEq] at h
        obtain ⟨⟨hs, hm, hso, hrv⟩, _⟩ := h
        subst hs
        subst hm
        subst hso
        subst hrv
        obtain ⟨ds, dm, dc, dcount, dso, dmono, _⟩ :=
          genBrandDays_spec h1 hpw hnn hnd
        refine ⟨ds, dm, dc, dcount, ?_, dmono, genReviews_spec h2⟩
        intro r hr
        exact ⟨(dso r hr).1, (dso r hr).2.1⟩

/-! ### The brand loop -/

theorem genBrands_spec {o : Oracle} {seasonal : ℤ → ℚ} :
    ∀ {bs : List String} {dates : List ℤ} {c : ℕ}
      {s : List SalesRec} {m : List MarketingRec} {so : List SocialRec}
      {rv : List ReviewRec} {c' : ℕ},
      genBrands o seasonal bs dates c = .ok ((s, m, so, rv), c') →
      List.Pairwise (· < ·) dates →
      bs.Nodup →
      (∀ r ∈ s, r.brand ∈ bs ∧ r.date ∈ dates ∧ SalesRowOk r) ∧
      (∀ x ∈ m, x.brand ∈ bs ∧ x.date ∈ dates ∧ MarketingRowOk x) ∧
      (∀ r ∈ so, r.brand ∈ bs ∧ r.date ∈ dates) ∧
      (∀ r ∈ rv, r.brand ∈ bs ∧ r.date ∈ dates) ∧
      (∀ b : String, ∀ d : ℤ, ∃ camp, camp ∈ campaigns ∧
        (∀ r ∈ s, r.brand = b → r.date = d → r.campaign = camp) ∧
        (∀ x ∈ m, x.brand = b → x.date = d → x.campaign = camp)) ∧
      (∀ b ∈ bs, ∀ d ∈ dates,
        40 ≤ s.countP (fun r => r.brand == b && r.date == d) ∧
        s.countP (fun r => r.brand == b && r.date == d) ≤ 150) ∧
      (∀ r1 ∈ so, ∀ r2 ∈ so, r1.brand = r2.brand →
        r1.platform = r2.platform → r1.date < r2.date →
        r1.followers ≤ r2.followers) ∧
      (∀ b ∈ bs, rv.countP (fun r => r.brand == b) = 120) := by
  intro bs
  induction bs with
  | nil =>
    intro dates c s m so rv c' h hpw hnd
    simp only [genBrands, Except.ok.injEq, Prod.mk.injEq] at h
    obtain ⟨⟨hs, hm, hso, hrv⟩, _⟩ := h
    subst hs
    subst hm
    subst hso
    subst hrv
    refine ⟨by simp, by simp, by simp, by simp, ?_, by simp, by simp, by simp⟩
    intro b d
    exact ⟨"Summer Glow", by simp [campaigns], by simp, by simp⟩
  | cons b0 rest ih =>
    intro dates c s m so rv c' h hpw hnd
    have hb0 : b0 ∉ rest := (List.nodup_cons.mp hnd).1
    have hndr : rest.Nodup := (List.nodup_cons.mp hnd).2
    unfold genBrands at h
    cases h1 : genBrand o seasonal b0 dates c with
    | error e => simp only [h1, exceptBind_err] at h; exact Except.noConfusion h
    | ok p =>
      obtain ⟨⟨s1, m1, so1, rv1⟩, c1⟩ := p
      simp only [h1, exceptBind_ok] at h
      cases h2 : genBrands o seasonal rest dates c1 with
      | error e => simp only [h2, exceptBind_err] at h; exact Except.noConfusion h
      | ok q =>
        obtain ⟨⟨s2, m2, so2, rv2⟩, c2⟩ := q
        simp only [h2, exceptBind_ok, exceptPure_eq_ok, Except.ok.injEq,
          Prod.mk.injEq] at h
        obtain ⟨⟨hs, hm, hso, hrv⟩, _⟩ := h
        subst hs
        subst hm
        subst hso
        subst hrv
        obtain ⟨bs1, bm1, bcamp, bcount, bso, bmono, brvlen, brvmem⟩ :=
          genBrand_spec h1 hpw
        obtain ⟨is1, im1, iso, irv, icamp, icount, imono, irvcount⟩ :=
          ih h2 hpw hndr
        refine ⟨?_, ?_, ?_, ?_, ?_, ?_, ?_, ?_⟩
        · intro r hr
          rcases List.mem_append.mp hr with hr | hr
          · obtain ⟨ha, hb, hc⟩ := bs1 r hr
            exact ⟨by rw [ha]; exact List.mem_cons_self _ _, hb, hc⟩
          · obtain ⟨ha, hb, hc⟩ := is1 r hr
            exact ⟨List.mem_cons_of_mem _ ha, hb, hc⟩
        · intro x hx
          rcases List.mem_append.mp hx with hx | hx
          · obtain ⟨ha, hb, hc⟩ := bm1 x hx
            exact ⟨by rw [ha]; exact List.mem_cons_self _ _, hb, hc⟩
          · obtain ⟨ha, hb, hc⟩ := im1 x hx
            exact ⟨List.mem_cons_of_mem _ ha, hb, hc⟩
        · intro r hr
          rcases List.mem_append.mp hr with hr | hr
          · obtain ⟨ha, hb⟩ := bso r hr
            exact ⟨by rw [ha]; exact List.mem_cons_self _ _, hb⟩
          · obtain ⟨ha, hb⟩ := iso r hr
            exact ⟨List.mem_cons_of_mem _ ha, hb⟩
        · intro r hr
          rcases List.mem_append.mp hr with hr | hr
          · obtain ⟨ha, hb⟩ := brvmem r hr
            exact ⟨by rw [ha]; exact List.mem_cons_self _ _, hb⟩
          · obtain ⟨ha, hb⟩ := irv r hr
            exact ⟨List.mem_cons_of_mem _ ha, hb⟩
        · intro b d
          by_cases hb : b = b0
          · subst hb
            obtain ⟨camp, hcampmem, hcs, hcm⟩ := bcamp d
            refine ⟨camp, hcampmem, ?_, ?_⟩
            · intro r hr hrb hrd
              rcases List.mem_append.mp hr with hr | hr
              · exact hcs r hr hrd
              · exact absurd (hrb ▸ (is1 r hr).1) hb0
            · intro x hx hxb hxd
              rcases List.mem_append.mp hx with hx | hx
              · exact hcm x hx hxd
              · exact absurd (hxb ▸ (im1 x hx).1) hb0
          · obtain ⟨camp, hcampmem, hcs, hcm⟩ := icamp b d
            refine ⟨camp, hcampmem, ?_, ?_⟩
            · intro r hr hrb hrd
              rcases List.mem_append.mp hr with hr | hr
              · exact absurd (hrb.symm.trans (bs1 r hr).1) hb
              · exact hcs r hr hrb hrd
            · intro x hx hxb hxd
              rcases List.mem_append.mp hx with hx | hx
              · exact absurd (hxb.symm.trans (bm1 x hx).1) hb
              · exact hcm x hx hxb hxd
        · intro b hbmem d hd
          rw [List.countP_append]
          rcases List.mem_cons.mp hbmem with hb | hb
          · subst hb
            have hc1 : s1.countP (fun r => r.brand == b && r.date == d) =
                s1.countP (fun r => r.date == d) := by
              apply List.countP_congr
              intro r hr
              simp only [Bool.and_eq_true, beq_iff_eq, and_iff_right_iff_imp]
              intro _
              exact (bs1 r hr).1
            have hc2 : s2.countP (fun r => r.brand == b && r.date == d) = 0 := by
              apply List.countP_eq_zero.mpr
              intro r hr
              simp only [Bool.and_eq_true, beq_iff_eq, not_and]
              intro hrb
              exact absurd (hrb ▸ (is1 r hr).1) hb0
            obtain ⟨hd1, hd2⟩ := bcount d hd
            rw [hc1, hc2]
            omega
          · have hc1 : s1.countP (fun r => r.brand == b && r.date == d) = 0 := by
              apply List.countP_eq_zero.mpr
              intro r hr
              simp only [Bool.and_eq_true, beq_iff_eq, not_and]
              intro hrb
              have : b0 = b := hrb.symm.trans (bs1 r hr).1 |>.symm
              exact absurd (this ▸ hb) hb0
            obtain ⟨hd1, hd2⟩ := icount b hb d hd
            rw [hc1]
            omega
        · intro r1 hr1 r2 hr2 hbeq hpeq hdlt
          rcases List.mem_append.mp hr1 with hr1 | hr1 <;>
            rcases List.mem_append.mp hr2 with hr2 | hr2
          · exact bmono r1 hr1 r2 hr2 hpeq hdlt
          · exfalso
            have e1 := (bso r1 hr1).1
            have e2 := (iso r2 hr2).1
            rw [← hbeq, e1] at e2
            exact hb0 e2
          · exfalso
            have e1 := (iso r1 hr1).1
            have e2 := (bso r2 hr2).1
            rw [hbeq, e2] at e1
            exact hb0 e1
          · exact imono r1 hr1 r2 hr2 hbeq hpeq hdlt
        · intro b hbmem
          rw [List.countP_append]
          rcases List.mem_cons.mp hbmem with hb | hb
          · subst hb
            have hc1 : rv1.countP (fun r => r.brand == b) = rv1.length := by
              apply List.countP_eq_length.mpr
              intro r hr
              simp only [beq_iff_eq]
              exact (brvmem r hr).1
            have hc2 : rv2.countP (fun r => r.brand == b) = 0 := by
              apply List.countP_eq_zero.mpr
              intro r hr
              simp only [beq_iff_eq]
              intro hrb
              exact absurd (hrb ▸ (irv r hr).1) hb0
            rw [hc1, hc2, brvlen]
          · have hc1 : rv1.countP (fun r => r.brand == b) = 0 := by
              apply List.countP_eq_zero.mpr
              intro r hr
              simp only [beq_iff_eq]
              intro hrb
              have : b0 = b := hrb.symm.trans (brvmem r hr).1 |>.symm
              exact absurd (this ▸ hb) hb0
            rw [hc1, irvcount b hb]

/-! ### From the top-level generator to the brand loop -/

theorem generate_mock_data_none_eq (o : Oracle) (seasonal : ℤ → ℚ)
    (start days : ℤ) (c : ℕ) :
    generate_mock_data o seasonal start days none c =
      generate_mock_data o seasonal start days
        (some ["Radiance", "GlowUp", "PureBeauty"]) c := rfl

theorem generate_mock_data_some_elim {o : Oracle} {seasonal : ℤ → ℚ}
    {start days : ℤ} {bs : List String} {c : ℕ} {s : List SalesRec}
    {m : List MarketingRec} {so : List SocialRec} {rv : List ReviewRec}
    {cps : List String} {c' : ℕ}
    (h : generate_mock_data o seasonal start days (some bs) c =
      .ok ((s, m, so, rv, cps), c')) :
    0 ≤ days ∧ cps = campaigns ∧
      genBrands o seasonal bs (horizon start days.toNat) c =
        .ok ((s, m, so, rv), c') := by
  simp only [generate_mock_data] at h
  split at h
  · exact Except.noConfusion h
  · rename_i hd
    cases hg : genBrands o seasonal bs (horizon start days.toNat) c with
    | error e => simp only [hg, exceptBind_err] at h; exact Except.noConfusion h
    | ok p =>
      obtain ⟨⟨s0, m0, so0, rv0⟩, c1⟩ := p
      simp only [hg, exceptBind_ok] at h
      cases hn1 : normalizeDates s0 with
      | error e => simp only [hn1, exceptBind_err] at h; exact Except.noConfusion h
      | ok s1 =>
        simp only [hn1, exceptBind_ok] at h
        cases hn2 : normalizeDates m0 with
        | error e => simp only [hn2, exceptBind_err] at h; exact Except.noConfusion h
        | ok m1 =>
          simp only [hn2, exceptBind_ok] at h
          cases hn3 : normalizeDates so0 with
          | error e => simp only [hn3, exceptBind_err] at h; exact Except.noConfusion h
          | ok so1 =>
            simp only [hn3, exceptBind_ok] at h
            cases hn4 : normalizeDates rv0 with
            | error e =>
              simp only [hn4, exceptBind_err] at h
              exact Except.noConfusion h
            | ok rv1 =>
              simp only [hn4, exceptBind_ok, exceptPure_eq_ok,
                Except.ok.injEq, Prod.mk.injEq] at h
              obtain ⟨⟨hs, hm, hso, hrv, hcps⟩, hc⟩ := h
              have e1 := normalizeDates_ok hn1
              have e2 := normalizeDates_ok hn2
              have e3 := normalizeDates_ok hn3
              have e4 := normalizeDates_ok hn4
              subst hs
              subst hm
              subst hso
              subst hrv
              subst hcps
              subst hc
              subst e1
              subst e2
              subst e3
              subst e4
              exact ⟨by omega, rfl, rfl⟩

theorem horizon_pairwise (start : ℤ) (days : ℕ) :
    List.Pairwise (· < ·) (horizon start days) := by
  unfold horizon
  exact List.Pairwise.map (fun (k : ℕ) => start + (k : ℤ))
    (fun a b h => by
      show start + (a : ℤ) < start + (b : ℤ)
      have h2 : a < b := h
      omega) (List.pairwise_lt_range days)

theorem genBrands_rows_spec {o : Oracle} {seasonal : ℤ → ℚ} :
    ∀ {bs : List String} {dates : List ℤ} {c : ℕ}
      {s : List SalesRec} {m : List MarketingRec} {so : List SocialRec}
      {rv : List ReviewRec} {c' : ℕ},
      genBrands o seasonal bs dates c = .ok ((s, m, so, rv), c') →
      List.Pairwise (· < ·) dates →
      (∀ r ∈ s, SalesRowOk r) ∧ (∀ x ∈ m, MarketingRowOk x) := by
  intro bs
  induction bs with
  | nil =>
    intro dates c s m so rv c' h hpw
    simp only [genBrands, Except.ok.injEq, Prod.mk.injEq] at h
    obtain ⟨⟨hs, hm, _, _⟩, _⟩ := h
    subst hs
    subst hm
    exact ⟨by simp, by simp⟩
  | cons b0 rest ih =>
    intro dates c s m so rv c' h hpw
    unfold genBrands at h
    cases h1 : genBrand o seasonal b0 dates c with
    | error e => simp only [h1, exceptBind_err] at h; exact Except.noConfusion h
    | ok p =>
      obtain ⟨⟨s1, m1, so1, rv1⟩, c1⟩ := p
      simp only [h1, exceptBind_ok] at h
      cases h2 : genBrands o seasonal rest dates c1 with
      | error e => simp only [h2, exceptBind_err] at h; exact Except.noConfusion h
      | ok q =>
        obtain ⟨⟨s2, m2, so2, rv2⟩, c2⟩ := q
        simp only [h2, exceptBind_ok, exceptPure_eq_ok, Except.ok.injEq,
          Prod.mk.injEq] at h
        obtain ⟨⟨hs, hm, _, _⟩, _⟩ := h
        subst hs
        subst hm
        obtain ⟨bs1, bm1, _, _, _, _, _⟩ := genBrand_spec h1 hpw
        obtain ⟨is1, im1⟩ := ih h2 hpw
        constructor
        · intro r hr
          rcases List.mem_append.mp hr with hr | hr
          · exact (bs1 r hr).2.2
          · exact is1 r hr
        · intro x hx
          rcases List.mem_append.mp hx with hx | hx
          · exact (bm1 x hx).2.2
          · exact im1 x hx

/-! ### Claims C3 to C8 -/

/-- Claim C3: in every row of the generated Sales table, Revenue equals
`round(UnitPrice * Qty, 2)`, Qty is an integer at least 1, and UnitPrice
lies in the closed interval `[0.6*base, 1.5*base]` where `base` is the base
price of the row category; Revenue is derived from UnitPrice and Qty at
generation time. -/
theorem claim_C3 {o : Oracle} {seasonal : ℤ → ℚ} {start days : ℤ}
    {bs : List String} {c : ℕ} {s : List SalesRec} {m : List MarketingRec}
    {so : List SocialRec} {rv : List ReviewRec} {cps : List String} {c' : ℕ}
    (h : generate_mock_data o seasonal start days (some bs) c =
      .ok ((s, m, so, rv, cps), c'))
    {r : SalesRec} (hr : r ∈ s) :
    r.revenue = round2 (r.unitPrice * (r.qty : ℚ)) ∧ 1 ≤ r.qty ∧
      ∃ bp, base_price r.category = some bp ∧
        bp * 0.6 ≤ r.unitPrice ∧ r.unitPrice ≤ bp * 1.5 := by
  obtain ⟨_, _, hg⟩ := generate_mock_data_some_elim h
  obtain ⟨hs, _⟩ := genBrands_rows_spec hg (horizon_pairwise _ _)
  exact hs r hr

/-- Claim C4: in every row of the generated Marketing table, Traffic is an
integer in `[100, 5000]`, CTR is in `[0.3, 4.5]`, CPC is present if and only
if the Channel is Paid, and a present CPC is in `[0.3, 2.0]`. -/
theorem claim_C4 {o : Oracle} {seasonal : ℤ → ℚ} {start days : ℤ}
    {bs : List String} {c : ℕ} {s : List SalesRec} {m : List MarketingRec}
    {so : List SocialRec} {rv : List ReviewRec} {cps : List String} {c' : ℕ}
    (h : generate_mock_data o seasonal start days (some bs) c =
      .ok ((s, m, so, rv, cps), c'))
    {x : MarketingRec} (hx : x ∈ m) :
    100 ≤ x.traffic ∧ x.traffic ≤ 5000 ∧
      (0.3 : ℚ) ≤ x.ctr ∧ x.ctr ≤ 4.5 ∧
      (x.cpc.isSome ↔ x.channel = "Paid") ∧
      ∀ v : ℚ, x.cpc = some v → (0.3 : ℚ) ≤ v ∧ v ≤ 2.0 := by
  obtain ⟨_, _, hg⟩ := generate_mock_data_some_elim h
  obtain ⟨_, hm⟩ := genBrands_rows_spec hg (horizon_pairwise _ _)
  exact hm x hx

/-- Claim C5: for every (brand, platform) pair, the Followers values in the
generated Social table are non-decreasing along the date order: any two rows
of the same brand and platform with strictly increasing dates have
non-decreasing follower counts. -/
theorem claim_C5 {o : Oracle} {seasonal : ℤ → ℚ} {start days : ℤ}
    {bs : List String} {c : ℕ} {s : List SalesRec} {m : List MarketingRec}
    {so : List SocialRec} {rv : List ReviewRec} {cps : List String} {c' : ℕ}
    (h : generate_mock_data o seasonal start days (some bs) c =
      .ok ((s, m, so, rv, cps), c'))
    (hnd : bs.Nodup) {r1 r2 : SocialRec} (hr1 : r1 ∈ so) (hr2 : r2 ∈ so)
    (hbr : r1.brand = r2.brand) (hp : r1.platform = r2.platform)
    (hdate : r1.date < r2.date) :
    r1.followers ≤ r2.followers := by
  obtain ⟨_, _, hg⟩ := generate_mock_data_some_elim h
  obtain ⟨_, _, _, _, _, _, hmono, _⟩ :=
    genBrands_spec hg (horizon_pairwise _ _) hnd
  exact hmono r1 hr1 r2 hr2 hbr hp hdate

/-- Claim C6: for every brand in the brand list, the generated Reviews table
has exactly 120 rows for that brand, the distinct review dates among them
number at most 120, and every review date lies within the generated day
horizon. -/
theorem claim_C6 {o : Oracle} {seasonal : ℤ → ℚ} {start days : ℤ}
    {bs : List String} {c : ℕ} {s : List SalesRec} {m : List MarketingRec}
    {so : List SocialRec} {rv : List ReviewRec} {cps : List String} {c' : ℕ}
    (h : generate_mock_data o seasonal start days (some bs) c =
      .ok ((s, m, so, rv, cps), c'))
    (hnd : bs.Nodup) {b : String} (hb : b ∈ bs) :
    rv.countP (fun r => r.brand == b) = 120 ∧
      ((rv.filter (fun r => r.brand == b)).map (fun r => r.date)).dedup.length ≤
        120 ∧
      ∀ r ∈ rv, r.date ∈ horizon start days.toNat := by
  obtain ⟨_, _, hg⟩ := generate_mock_data_some_elim h
  obtain ⟨_, _, _, hrv, _, _, _, hcount⟩ :=
    genBrands_spec hg (horizon_pairwise _ _) hnd
  have h120 := hcount b hb
  refine ⟨h120, ?_, fun r hr => (hrv r hr).2⟩
  have hlf : (rv.filter (fun r => r.brand == b)).length = 120 := by
    rw [← List.countP_eq_length_filter]
    exact h120
  calc ((rv.filter (fun r => r.brand == b)).map (fun r => r.date)).dedup.length
      ≤ ((rv.filter (fun r => r.brand == b)).map (fun r => r.date)).length :=
        (List.dedup_sublist _).length_le
    _ = 120 := by rw [List.length_map, hlf]

/-- Claim C7: for every brand and every day, a single campaign out of the
fixed campaign catalog covers all Sales rows and all Marketing rows of that
brand on that day. -/
theorem claim_C7 {o : Oracle} {seasonal : ℤ → ℚ} {start days : ℤ}
    {bs : List String} {c : ℕ} {s : List SalesRec} {m : List MarketingRec}
    {so : List SocialRec} {rv : List ReviewRec} {cps : List String} {c' : ℕ}
    (h : generate_mock_data o seasonal start days (some bs) c =
      .ok ((s, m, so, rv, cps), c'))
    (hnd : bs.Nodup) (b : String) (d : ℤ) :
    ∃ camp, camp ∈ campaigns ∧
      (∀ r ∈ s, r.brand = b → r.date = d → r.campaign = camp) ∧
      ∀ x ∈ m, x.brand = b → x.date = d → x.campaign = camp := by
  obtain ⟨_, _, hg⟩ := generate_mock_data_some_elim h
  obtain ⟨_, _, _, _, hcamp, _, _, _⟩ :=
    genBrands_spec hg (horizon_pairwise _ _) hnd
  exact hcamp b d

/-- Claim C8: for every brand in the brand list and every day of the
horizon, the number of Sales rows generated for that brand-day is an integer
in `[40, 150]`, whatever the seasonal and weekday multipliers are. -/
theorem claim_C8 {o : Oracle} {seasonal : ℤ → ℚ} {start days : ℤ}
    {bs : List String} {c : ℕ} {s : List SalesRec} {m : List MarketingRec}
    {so : List SocialRec} {rv : List ReviewRec} {cps : List String} {c' : ℕ}
    (h : generate_mock_data o seasonal start days (some bs) c =
      .ok ((s, m, so, rv, cps), c'))
    (hnd : bs.Nodup) {b : String} (hb : b ∈ bs) {d : ℤ}
    (hd : d ∈ horizon start days.toNat) :
    40 ≤ s.countP (fun r => r.brand == b && r.date == d) ∧
      s.countP (fun r => r.brand == b && r.date == d) ≤ 150 := by
  obtain ⟨_, _, hg⟩ := generate_mock_data_some_elim h
  obtain ⟨_, _, _, _, _, hcount, _, _⟩ :=
    genBrands_spec hg (horizon_pairwise _ _) hnd
  exact hcount b hb d hd

/-! ### C10: totality over the hardcoded brands, KeyError outside them -/

theorem cats_lookup_ok : ∀ cat ∈ cats,
    (categories.lookup cat).getD [] ≠ [] := by decide

theorem base_price_isSome : ∀ cat ∈ cats, (base_price cat).isSome = true := by
  decide

theorem base_traffic_isSome : ∀ ch ∈ marketing_channels,
    (base_traffic ch).isSome = true := by decide

theorem cat_weights_none {b : String}
    (hb : b ∉ ["Radiance", "GlowUp", "PureBeauty"]) : cat_weights b = none := by
  unfold cat_weights
  simp only [List.mem_cons, List.not_mem_nil, or_false, not_or] at hb
  rw [if_neg hb.1, if_neg hb.2.1, if_neg hb.2.2]

theorem genOrder_ok (o : Oracle) (brand : String) (date : ℤ) (camp : String)
    {w : List ℚ} (hw : cat_weights brand = some w) (c : ℕ) :
    ∃ r c', genOrder o brand date camp c = .ok (r, c') := by
  obtain ⟨cat, c1, hcat, hcatmem⟩ :=
    pyChoice_ne_nil_ok o c (show cats ≠ [] by decide)
  have hlk := cats_lookup_ok cat hcatmem
  cases hcl : categories.lookup cat with
  | none => rw [hcl] at hlk; exact absurd rfl hlk
  | some prods =>
    rw [hcl] at hlk
    simp only [Option.getD_some] at hlk
    obtain ⟨prod, c2, hprod, _⟩ := pyChoice_ne_nil_ok o c1 hlk
    obtain ⟨ch, c3, hch, _⟩ :=
      pyChoice_ne_nil_ok o c2 (show channels ≠ [] by decide)
    obtain ⟨off, c4, hoff, _⟩ :=
      pyChoice_ne_nil_ok o c3 (show offers ≠ [] by decide)
    obtain ⟨bp, hbp⟩ :=
      Option.isSome_iff_exists.mp (base_price_isSome cat hcatmem)
    cases hres : genOrder o brand date camp c with
    | ok p => exact ⟨p.1, p.2, rfl⟩
    | error e =>
      exfalso
      unfold genOrder at hres
      simp only [hw, dictGet, exceptBind_ok, pyChoicesW, hcat, hcl, hprod,
        hch, hoff, hbp, pyNormal, pyExponential, exceptPure_eq_ok] at hres
      exact Except.noConfusion hres

theorem genOrders_ok (o : Oracle) (brand : String) (date : ℤ) (camp : String)
    {w : List ℚ} (hw : cat_weights brand = some w) :
    ∀ (n c : ℕ), ∃ rs c', genOrders o brand date camp n c = .ok (rs, c') := by
  intro n
  induction n with
  | zero => intro c; exact ⟨[], c, rfl⟩
  | succ k ih =>
    intro c
    obtain ⟨r, c1, h1⟩ := genOrder_ok o brand date camp hw c
    obtain ⟨rs, c2, h2⟩ := ih c1
    cases hres : genOrders o brand date camp (k + 1) c with
    | ok p => exact ⟨p.1, p.2, rfl⟩
    | error e =>
      exfalso
      unfold genOrders at hres
      simp only [h1, exceptBind_ok, h2, exceptPure_eq_ok] at hres
      exact Except.noConfusion hres

theorem genMarketingOne_ok (o : Oracle) (brand : String) (date : ℤ)
    (camp : String) (sm : ℚ) (ch : String) {bt : ℚ}
    (hbt : base_traffic ch = some bt) (c : ℕ) :
    ∃ x c', genMarketingOne o brand date camp sm ch c = .ok (x, c') := by
  cases hres : genMarketingOne o brand date camp sm ch c with
  | ok p => exact ⟨p.1, p.2, rfl⟩
  | error e =>
    exfalso
    unfold genMarketingOne at hres
    simp only [hbt, dictGet, exceptBind_ok, pyNormal, pyUniform] at hres
    split at hres
    · exact Except.noConfusion hres
    · exact Except.noConfusion hres

theorem genMarketingList_ok (o : Oracle) (brand : String) (date : ℤ)
    (camp : String) (sm : ℚ) :
    ∀ {chs : List String}, (∀ ch ∈ chs, (base_traffic ch).isSome = true) →
      ∀ (c : ℕ), ∃ ms c',
        genMarketingList o brand date camp sm chs c = .ok (ms, c') := by
  intro chs
  induction chs with
  | nil => intro _ c; exact ⟨[], c, rfl⟩
  | cons ch rest ih =>
    intro hall c
    obtain ⟨bt, hbt⟩ :=
      Option.isSome_iff_exists.mp (hall ch (List.mem_cons_self _ _))
    obtain ⟨x, c1, h1⟩ := genMarketingOne_ok o brand date camp sm ch hbt c
    obtain ⟨ms, c2, h2⟩ := ih (fun d hd => hall d (List.mem_cons_of_mem _ hd)) c1
    cases hres : genMarketingList o brand date camp sm (ch :: rest) c with
    | ok p => exact ⟨p.1, p.2, rfl⟩
    | error e =>
      exfalso
      unfold genMarketingList at hres
      simp only [h1, exceptBind_ok, h2, exceptPure_eq_ok] at hres
      exact Except.noConfusion hres

theorem genBrandDay_ok (o : Oracle) (seasonal : ℤ → ℚ) (brand : String)
    (date : ℤ) {w : List ℚ} (hw : cat_weights brand = some w)
    (fs : List (String × ℤ)) (c : ℕ) :
    ∃ out c', genBrandDay o seasonal brand date fs c = .ok (out, c') := by
  obtain ⟨camp, c2, hcp, _⟩ :=
    pyChoice_ne_nil_ok o (c + 1) (show campaigns ≠ [] by decide)
  obtain ⟨srecs, c3, hor⟩ := genOrders_ok o brand date camp hw
    (truncQ (clamp (80 * seasonal date * weekday_factor date + 15 * o.q c)
      40 150)).toNat c2
  obtain ⟨mrecs, c4, hmk⟩ :=
    genMarketingList_ok o brand date camp (seasonal date) base_traffic_isSome c3
  cases hres : genBrandDay o seasonal brand date fs c with
  | ok p => exact ⟨p.1, p.2, rfl⟩
  | error e =>
    exfalso
    unfold genBrandDay at hres
    simp only [pyNormal, hcp, exceptBind_ok, hor, hmk, exceptPure_eq_ok] at hres
    exact Except.noConfusion hres

theorem genBrandDays_ok (o : Oracle) (seasonal : ℤ → ℚ) (brand : String)
    {w : List ℚ} (hw : cat_weights brand = some w) :
    ∀ (dates : List ℤ) (fs : List (String × ℤ)) (c : ℕ),
      ∃ out c', genBrandDays o seasonal brand dates fs c = .ok (out, c') := by
  intro dates
  induction dates with
  | nil => intro fs c; exact ⟨([], [], [], fs), c, rfl⟩
  | cons d rest ih =>
    intro fs c
    obtain ⟨out1, c1, h1⟩ := genBrandDay_ok o seasonal brand d hw fs c
    obtain ⟨s1, m1, so1, fs1⟩ := out1
    obtain ⟨out2, c2, h2⟩ := ih fs1 c1
    obtain ⟨s2, m2, so2, fs2⟩ := out2
    cases hres : genBrandDays o seasonal brand (d :: rest) fs c with
    | ok p => exact ⟨p.1, p.2, rfl⟩
    | error e =>
      exfalso
      unfold genBrandDays at hres
      simp only [h1, exceptBind_ok, h2, exceptPure_eq_ok] at hres
      exact Except.noConfusion hres

theorem genReviewRow_ok (o : Oracle) (brand : String) (d : ℤ) (c : ℕ) :
    ∃ r c', genReviewRow o brand d c = .ok (r, c') := by
  obtain ⟨sent, c1, hsent, hsmem⟩ :=
    pyChoice_ne_nil_ok o c (show sentiments ≠ [] by decide)
  have hfound : ∀ r45 r12 : ℤ,
      ∃ rat, ([("Positive", r45), ("Neutral", (3 : ℤ)),
        ("Negative", r12)].lookup sent) = some rat := by
    intro r45 r12
    simp only [sentiments, List.mem_cons, List.not_mem_nil, or_false] at hsmem
    rcases hsmem with h | h | h
    · subst h; exact ⟨r45, rfl⟩
    · subst h; exact ⟨3, rfl⟩
    · subst h; exact ⟨r12, rfl⟩
  cases hres : genReviewRow o brand d c with
  | ok p => exact ⟨p.1, p.2, rfl⟩
  | error e =>
    exfalso
    obtain ⟨rat, hrat⟩ :=
      hfound (pyRandint o 4 5 c1).1 (pyRandint o 1 2 (c1 + 1)).1
    unfold genReviewRow at hres
    simp only [pyChoicesW, hsent, exceptBind_ok, pyRandint] at hres
    simp only [pyRandint] at hrat
    simp only [hrat, dictGet, exceptBind_ok, exceptPure_eq_ok] at hres
    exact Except.noConfusion hres

theorem genReviewRows_ok (o : Oracle) (brand : String) :
    ∀ (ds : List ℤ) (c : ℕ),
      ∃ rv c', genReviewRows o brand ds c = .ok (rv, c') := by
  intro ds
  induction ds with
  | nil => intro c; exact ⟨[], c, rfl⟩
  | cons d rest ih =>
    intro c
    obtain ⟨r, c1, h1⟩ := genReviewRow_ok o brand d c
    obtain ⟨rs, c2, h2⟩ := ih c1
    cases hres : genReviewRows o brand (d :: rest) c with
    | ok p => exact ⟨p.1, p.2, rfl⟩
    | error e =>
      exfalso
      unfold genReviewRows at hres
      simp only [h1, exceptBind_ok, h2, exceptPure_eq_ok] at hres
      exact Except.noConfusion hres

theorem genReviews_ok (o : Oracle) (brand : String) {dates : List ℤ}
    (hne : dates ≠ []) (c : ℕ) :
    ∃ rv c', genReviews o brand dates c = .ok (rv, c') := by
  obtain ⟨rdates, c1, h1⟩ := pyChoicesK_ne_nil_ok o hne 120 c
  obtain ⟨rv, c2, h2⟩ := genReviewRows_ok o brand rdates c1
  cases hres : genReviews o brand dates c with
  | ok p => exact ⟨p.1, p.2, rfl⟩
  | error e =>
    exfalso
    unfold genReviews at hres
    simp only [h1, exceptBind_ok, h2] at hres
    exact Except.noConfusion hres

theorem genBrand_ok (o : Oracle) (seasonal : ℤ → ℚ) (brand : String)
    {dates : List ℤ} {w : List ℚ} (hw : cat_weights brand = some w)
    (hne : dates ≠ []) (c : ℕ) :
    ∃ out c', genBrand o seasonal brand dates c = .ok (out, c') := by
  cases hfs : initFollowers o social_platforms c with
  | mk fs0 c1 =>
    obtain ⟨out1, c2, h1⟩ := genBrandDays_ok o seasonal brand hw dates fs0 c1
    obtain ⟨s, m, so, fsx⟩ := out1
    obtain ⟨rv, c3, h2⟩ := genReviews_ok o brand hne c2
    cases hres : genBrand o seasonal brand dates c with
    | ok p => exact ⟨p.1, p.2, rfl⟩
    | error e =>
      exfalso
      unfold genBrand at hres
      simp only [hfs, h1, exceptBind_ok, h2, exceptPure_eq_ok] at hres
      exact Except.noConfusion hres

theorem genOrder_bad (o : Oracle) (brand : String) (date : ℤ) (camp : String)
    (hw : cat_weights brand = none) (c : ℕ) :
    genOrder o brand date camp c = .error .keyError := by
  unfold genOrder
  simp only [hw, dictGet, exceptBind_err]

theorem genOrders_bad (o : Oracle) (brand : String) (date : ℤ) (camp : String)
    (hw : cat_weights brand = none) {n : ℕ} (hn : 0 < n) (c : ℕ) :
    genOrders o brand date camp n c = .error .keyError := by
  cases n with
  | zero => omega
  | succ k =>
    unfold genOrders
    rw [genOrder_bad o brand date camp hw c]
    rfl

theorem genBrandDay_bad (o : Oracle) (seasonal : ℤ → ℚ) (brand : String)
    (date : ℤ) (hw : cat_weights brand = none) (fs : List (String × ℤ))
    (c : ℕ) : genBrandDay o seasonal brand date fs c = .error .keyError := by
  obtain ⟨camp, c2, hcp, _⟩ :=
    pyChoice_ne_nil_ok o (c + 1) (show campaigns ≠ [] by decide)
  have h1 : (40 : ℚ) ≤
      clamp (80 * seasonal date * weekday_factor date + 15 * o.q c) 40 150 :=
    le_clamp _ _ _
  have hn : 0 < (truncQ (clamp
      (80 * seasonal date * weekday_factor date + 15 * o.q c) 40 150)).toNat := by
    have h2 : (40 : ℤ) ≤ truncQ (clamp
        (80 * seasonal date * weekday_factor date + 15 * o.q c) 40 150) :=
      le_truncQ_of_int_le (by linarith) (by exact_mod_cast h1)
    omega
  unfold genBrandDay
  simp only [pyNormal, hcp, exceptBind_ok,
    genOrders_bad o brand date camp hw hn c2, exceptBind_err]

theorem genBrandDays_bad (o : Oracle) (seasonal : ℤ → ℚ) (brand : String)
    (hw : cat_weights brand = none) (d : ℤ) (rest : List ℤ)
    (fs : List (String × ℤ)) (c : ℕ) :
    genBrandDays o seasonal brand (d :: rest) fs c = .error .keyError := by
  unfold genBrandDays
  rw [genBrandDay_bad o seasonal brand d hw fs c]
  rfl

theorem genBrand_bad (o : Oracle) (seasonal : ℤ → ℚ) (brand : String)
    (hw : cat_weights brand = none) (d : ℤ) (rest : List ℤ) (c : ℕ) :
    genBrand o seasonal brand (d :: rest) c = .error .keyError := by
  unfold genBrand
  cases hfs : initFollowers o social_platforms c with
  | mk fs0 c1 =>
    simp only [hfs, genBrandDays_bad o seasonal brand hw d rest fs0 c1,
      exceptBind_err]

theorem genBrands_bad (o : Oracle) (seasonal : ℤ → ℚ) :
    ∀ {bs : List String} (d : ℤ) (rest : List ℤ) (c : ℕ),
      (∃ b ∈ bs, cat_weights b = none) →
      genBrands o seasonal bs (d :: rest) c = .error .keyError := by
  intro bs
  induction bs with
  | nil =>
    intro d rest c h
    simp at h
  | cons b0 tail ih =>
    intro d rest c hbad
    unfold genBrands
    cases hw0 : cat_weights b0 with
    | none =>
      rw [genBrand_bad o seasonal b0 hw0 d rest c]
      rfl
    | some w =>
      obtain ⟨out1, c1, h1⟩ :=
        genBrand_ok o seasonal b0 hw0 (show (d :: rest) ≠ [] by simp) c
      obtain ⟨s1, m1, so1, rv1⟩ := out1
      have htail : ∃ b ∈ tail, cat_weights b = none := by
        obtain ⟨b, hbmem, hbn⟩ := hbad
        rcases List.mem_cons.mp hbmem with hb | hb
        · subst hb
          rw [hw0] at hbn
          exact absurd hbn (by simp)
        · exact ⟨b, hb, hbn⟩
      simp only [h1, exceptBind_ok, ih d rest c1 htail, exceptBind_err]

/-- Claim C10: with a day count of at least 1, a brand list containing any
name outside the hardcoded set Radiance, GlowUp, PureBeauty makes
`generate_mock_data` raise KeyError (from the per-brand category-weight
dict lookup) instead of returning tables. -/
theorem claim_C10 (o : Oracle) (seasonal : ℤ → ℚ) (start days : ℤ)
    (bs : List String) (c : ℕ) (hdays : 1 ≤ days)
    (hbad : ∃ b ∈ bs, b ∉ ["Radiance", "GlowUp", "PureBeauty"]) :
    generate_mock_data o seasonal start days (some bs) c =
      .error .keyError := by
  have hbad2 : ∃ b ∈ bs, cat_weights b = none := by
    obtain ⟨b, hb, hnb⟩ := hbad
    exact ⟨b, hb, cat_weights_none hnb⟩
  have hhor : ∃ d rest, horizon start days.toNat = d :: rest := by
    unfold horizon
    cases hn : days.toNat with
    | zero => omega
    | succ k =>
      rw [List.range_succ_eq_map]
      exact ⟨start + 0, _, rfl⟩
  obtain ⟨d, rest, hdr⟩ := hhor
  simp only [generate_mock_data]
  split
  · rename_i hneg
    exact absurd hneg (by omega)
  · rw [hdr, genBrands_bad o seasonal d rest c hbad2]
    rfl

/-- Witness for C10 at a concrete input: one valid and one unknown brand. -/
theorem claim_C10_witness :
    generate_mock_data oracle0 seasonal0 0 1 (some ["Radiance", "Nova"]) 0 =
      .error .keyError :=
  claim_C10 oracle0 seasonal0 0 1 ["Radiance", "Nova"] 0 (by norm_num)
    (by decide)

/-! ### Witnesses on a concrete generated dataset -/

theorem headD_mem {α : Type} {l : List α} (h : l.isEmpty = false) (d : α) :
    l.headD d ∈ l := by
  cases l with
  | nil => simp at h
  | cons a t => exact List.mem_cons_self _ _

theorem run2_ok_elim :
    ∃ c', run2 = .ok ((salesOf run2, marketingOf run2, socialOf run2,
      reviewsOf run2, campaigns), c') := by
  cases hrun : run2 with
  | error e =>
    have hok : exceptIsOk run2 = true := by with_unfolding_all rfl
    rw [hrun] at hok
    exact absurd hok (by simp [exceptIsOk])
  | ok p =>
    obtain ⟨⟨s, m, so, rv, cps⟩, c'⟩ := p
    have hcps : cps = campaigns := (generate_mock_data_some_elim hrun).2.1
    subst hcps
    exact ⟨c', rfl⟩

/-- Witness for C3: the first Sales row of a concrete run satisfies the
revenue, quantity and price-band invariants, with base price 45 for its
category. -/
theorem claim_C3_witness :
    wrow3.revenue = round2 (wrow3.unitPrice * (wrow3.qty : ℚ)) ∧
    1 ≤ wrow3.qty ∧ base_price wrow3.category = some 45 ∧
    45 * 0.6 ≤ wrow3.unitPrice ∧ wrow3.unitPrice ≤ 45 * 1.5 := by
  obtain ⟨c', hrun⟩ := run2_ok_elim
  have hne : (salesOf run2).isEmpty = false := by with_unfolding_all rfl
  have hmem : wrow3 ∈ salesOf run2 := headD_mem hne _
  obtain ⟨h1, h2, bp, hbp, h3, h4⟩ := claim_C3 hrun hmem
  have hbp45 : base_price wrow3.category = some 45 := by with_unfolding_all rfl
  have hbpe : bp = 45 := by
    rw [hbp] at hbp45
    exact Option.some.inj hbp45
  subst hbpe
  exact ⟨h1, h2, hbp45, h3, h4⟩

/-- Witness for C4: the first Marketing row of a concrete run satisfies the
traffic, CTR and CPC-presence invariants. -/
theorem claim_C4_witness :
    100 ≤ wrow4.traffic ∧ wrow4.traffic ≤ 5000 ∧
    (0.3 : ℚ) ≤ wrow4.ctr ∧ wrow4.ctr ≤ 4.5 ∧
    (wrow4.cpc.isSome ↔ wrow4.channel = "Paid") := by
  obtain ⟨c', hrun⟩ := run2_ok_elim
  have hne : (marketingOf run2).isEmpty = false := by with_unfolding_all rfl
  have hmem : wrow4 ∈ marketingOf run2 := headD_mem hne _
  obtain ⟨h1, h2, h3, h4, h5, _⟩ := claim_C4 hrun hmem
  exact ⟨h1, h2, h3, h4, h5⟩

/-- Witness for C5: in a concrete run, the day-one and day-two Social rows
of the same brand and platform have non-decreasing followers. -/
theorem claim_C5_witness : wrow5a.followers ≤ wrow5b.followers := by
  obtain ⟨c', hrun⟩ := run2_ok_elim
  have hneA : (socialOf run2).isEmpty = false := by with_unfolding_all rfl
  have hneB : ((socialOf run2).drop 4).isEmpty = false := by
    with_unfolding_all rfl
  have hmemA : wrow5a ∈ socialOf run2 := headD_mem hneA _
  have hmemB : wrow5b ∈ socialOf run2 :=
    List.mem_of_mem_drop (headD_mem hneB _)
  have hbr : wrow5a.brand = wrow5b.brand := by with_unfolding_all rfl
  have hp : wrow5a.platform = wrow5b.platform := by with_unfolding_all rfl
  have hda : wrow5a.date = 0 := by with_unfolding_all rfl
  have hdb : wrow5b.date = 1 := by with_unfolding_all rfl
  exact claim_C5 hrun (by decide) hmemA hmemB hbr hp
    (by rw [hda, hdb]; norm_num)

/-- Witness for C6: in a concrete run, the single brand has exactly 120
review rows, at most 120 distinct review dates, and its first review date
lies in the horizon. -/
theorem claim_C6_witness :
    (reviewsOf run2).countP (fun r => r.brand == "Radiance") = 120 ∧
    (((reviewsOf run2).filter (fun r => r.brand == "Radiance")).map
      (fun r => r.date)).dedup.length ≤ 120 ∧
    wrow6.date ∈ horizon 0 (Int.toNat 2) := by
  obtain ⟨c', hrun⟩ := run2_ok_elim
  obtain ⟨h1, h2, h3⟩ := claim_C6 hrun (by decide)
    (show "Radiance" ∈ ["Radiance"] by simp)
  have hne : (reviewsOf run2).isEmpty = false := by with_unfolding_all rfl
  exact ⟨h1, h2, h3 wrow6 (headD_mem hne _)⟩

/-- Witness for C7: in a concrete run, the first two Sales rows and the
first Marketing row of the same brand-day all carry one campaign from the
catalog. -/
theorem claim_C7_witness :
    wrow3.campaign = wrow7.campaign ∧ wrow3.campaign = wrow4.campaign ∧
    wrow3.campaign ∈ campaigns := by
  obtain ⟨c', hrun⟩ := run2_ok_elim
  obtain ⟨camp, hcampmem, hsales, hmkt⟩ := claim_C7 hrun (by decide)
    "Radiance" 0
  have hneS : (salesOf run2).isEmpty = false := by with_unfolding_all rfl
  have hneS1 : ((salesOf run2).drop 1).isEmpty = false := by
    with_unfolding_all rfl
  have hneM : (marketingOf run2).isEmpty = false := by with_unfolding_all rfl
  have h3 := hsales wrow3 (headD_mem hneS _) (by with_unfolding_all rfl)
    (by with_unfolding_all rfl)
  have h7 := hsales wrow7 (List.mem_of_mem_drop (headD_mem hneS1 _))
    (by with_unfolding_all rfl) (by with_unfolding_all rfl)
  have h4 := hmkt wrow4 (headD_mem hneM _) (by with_unfolding_all rfl)
    (by with_unfolding_all rfl)
  refine ⟨h3.trans h7.symm, h3.trans h4.symm, ?_⟩
  rw [h3]
  exact hcampmem

/-- Witness for C8: in a concrete run, the brand-day order count lies in
the interval from 40 to 150. -/
theorem claim_C8_witness :
    40 ≤ (salesOf run2).countP
      (fun r => r.brand == "Radiance" && r.date == 0) ∧
    (salesOf run2).countP
      (fun r => r.brand == "Radiance" && r.date == 0) ≤ 150 := by
  obtain ⟨c', hrun⟩ := run2_ok_elim
  exact claim_C8 hrun (by decide) (show "Radiance" ∈ ["Radiance"] by simp)
    (show (0 : ℤ) ∈ horizon 0 (Int.toNat 2) by decide)
